import Mathlib

/-!
Shallow embedding of the Monopoly game engine of this repository.

The repository contains two parallel prototypes:
* `finance.py` / `models.py` / `game.py` — the aggregate built around
  `Bank`, `TradeManager`, `Auction`, `TurnManager` and `GameSession`
  (embedded in namespace `Monopoly.Fin`);
* `bank.py` / `player.py` / `property.py` / `board.py` — the legacy
  prototype with `Bank.transfer`, `Bank.handle_bankruptcy`,
  `Player.pay_rent` and `Property.calculate_rent`
  (embedded in namespace `Monopoly.Leg`).

Both prototypes share the same shape of mutable data (balances, property
lists, owners, build levels / house counts, mortgage flags, jail fields),
so a single state record `GState` indexed by player ids and property ids
serves both; immutable per-property data (prices, rents, colour groups)
lives in a separate `Config` record.  Python object identity is modelled
by the numeric ids; `property.houses` of the legacy prototype and
`PropertyCell.build_level` of the other one are the same concept and are
both modelled by the `buildLevel` field.
-/

namespace Monopoly

/-- Pointwise update of a function, modelling assignment to one object's
attribute in a heap of objects indexed by `Nat` ids. -/
def upd {α : Type} (f : Nat → α) (k : Nat) (v : α) : Nat → α :=
  fun x => if x = k then v else f x

@[simp] theorem upd_same {α : Type} (f : Nat → α) (k : Nat) (v : α) :
    upd f k v k = v := by
  simp [upd]

@[simp] theorem upd_apply {α : Type} (f : Nat → α) (k : Nat) (v : α) (x : Nat) :
    upd f k v x = if x = k then v else f x := rfl

/-- One entry of a transaction log (`Bank._log_transaction` in `finance.py`,
`Bank.transactions` in `bank.py`).  `none` endpoints stand for the bank. -/
structure LogEntry where
  kind : String
  src : Option Nat
  dst : Option Nat
  amount : Int
  reason : String
deriving Repr, DecidableEq

/-- A trade offer (`TradeOffer` in `finance.py`). -/
structure TradeOffer where
  fromPlayer : Nat
  toPlayer : Nat
  moneyFrom : Int
  moneyTo : Int
  propertiesFrom : List Nat
  propertiesTo : List Nat
  cardsFrom : List Nat
  cardsTo : List Nat
deriving Repr, DecidableEq

/-- Immutable per-property data: purchase price, `models.py` base rent,
`property.py` flat rent, and colour-group structure. -/
structure Config where
  price : Nat → Int
  baseRent : Nat → Int
  legacyRent : Nat → Int
  groupOf : Nat → Option Nat
  groupMembers : Nat → List Nat

/-- The mutable game state shared by both prototypes: player attributes
(balance, property list, position, jail fields, bankrupt flag), property
attributes (owner, build level, mortgage flag), the bank's transaction log
and reserve, and the trade manager's pending-offer queue. -/
structure GState where
  balance : Nat → Int
  propList : Nat → List Nat
  owner : Nat → Option Nat
  buildLevel : Nat → Nat
  mortgaged : Nat → Bool
  position : Nat → Nat
  inJail : Nat → Bool
  jailTurnsLeft : Nat → Int
  bankrupt : Nat → Bool
  availableMoney : Int
  log : List LogEntry
  pending : List TradeOffer

namespace Fin

/-- `Player.adjust_balance` in `models.py`. -/
def adjustBalance (s : GState) (p : Nat) (delta : Int) : GState :=
  { s with balance := upd s.balance p (s.balance p + delta) }

/-- `Bank.debit` in `finance.py`: fails with no state change when the
balance is below the amount, otherwise subtracts and logs. -/
def debit (s : GState) (p : Nat) (amount : Int) (reason : String) :
    Bool × GState :=
  if s.balance p < amount then (false, s)
  else
    let s1 := adjustBalance s p (-amount)
    (true, { s1 with log := s1.log ++ [⟨"debit", some p, none, amount, reason⟩] })

/-- `Bank.credit` in `finance.py`: unconditionally adds and logs. -/
def credit (s : GState) (p : Nat) (amount : Int) (reason : String) : GState :=
  let s1 := adjustBalance s p amount
  { s1 with log := s1.log ++ [⟨"credit", none, some p, amount, reason⟩] }

/-- `Bank.transfer` in `finance.py`: fails with no state change (and no log
entry) when the sender's balance is below the amount; otherwise debits the
sender, credits the receiver and appends one log entry. -/
def transfer (s : GState) (fromP toP : Nat) (amount : Int) (reason : String) :
    Bool × GState :=
  if s.balance fromP < amount then (false, s)
  else
    let s1 := adjustBalance s fromP (-amount)
    let s2 := adjustBalance s1 toP amount
    (true, { s2 with log := s2.log ++ [⟨"transfer", some fromP, some toP, amount, reason⟩] })

@[simp] theorem adjustBalance_propList (s : GState) (p : Nat) (d : Int) :
    (adjustBalance s p d).propList = s.propList := rfl

@[simp] theorem adjustBalance_owner (s : GState) (p : Nat) (d : Int) :
    (adjustBalance s p d).owner = s.owner := rfl

/-- `Player.add_property` in `models.py`: appends unless already present. -/
def addProperty (s : GState) (pl prop : Nat) : GState :=
  if prop ∈ s.propList pl then s
  else { s with propList := upd s.propList pl (s.propList pl ++ [prop]) }

/-- `Player.remove_property` in `models.py`: removes the first occurrence
if present. -/
def removeProperty (s : GState) (pl prop : Nat) : GState :=
  if prop ∈ s.propList pl then
    { s with propList := upd s.propList pl ((s.propList pl).erase prop) }
  else s

/-- `Bank.purchase_property` in `finance.py`: refuses owned cells, debits
the price, then assigns ownership and records the property to the buyer. -/
def purchaseProperty (cfg : Config) (s : GState) (pl prop : Nat) :
    Bool × GState :=
  if (s.owner prop).isSome then (false, s)
  else
    match debit s pl (cfg.price prop) "purchase" with
    | (false, s1) => (false, s1)
    | (true, s1) =>
        let s2 := { s1 with owner := upd s1.owner prop (some pl) }
        (true, addProperty s2 pl prop)

/-- One iteration of the property-exchange loops of `Bank.settle_trade`:
set the cell's owner to the receiver, drop it from the giver's list and
add it to the receiver's list. -/
def giveProp (s : GState) (giver receiver prop : Nat) : GState :=
  let s1 := { s with owner := upd s.owner prop (some receiver) }
  addProperty (removeProperty s1 giver prop) receiver prop

/-- The money-exchange section of `Bank.settle_trade`: each positive leg
is transferred (the results of the inner `transfer` calls are discarded by
the source). -/
def settleMoney (s : GState) (o : TradeOffer) : GState :=
  let s1 := if 0 < o.moneyFrom then
      (transfer s o.fromPlayer o.toPlayer o.moneyFrom "Trade").2 else s
  if 0 < o.moneyTo then
      (transfer s1 o.toPlayer o.fromPlayer o.moneyTo "Trade").2 else s1

/-- The property-exchange section of `Bank.settle_trade`: the two
reassignment loops. -/
def settleProps (s : GState) (o : TradeOffer) : GState :=
  let s3 := o.propertiesFrom.foldl
      (fun st p => giveProp st o.fromPlayer o.toPlayer p) s
  o.propertiesTo.foldl (fun st p => giveProp st o.toPlayer o.fromPlayer p) s3

/-- `Bank.settle_trade` in `finance.py`: both money legs are checked
against current balances up front; if either check fails nothing has been
mutated yet and `False` is returned.  Otherwise the money legs are
transferred and every listed property is reassigned, with no re-check of
current ownership or build level. -/
def settleTrade (s : GState) (o : TradeOffer) : Bool × GState :=
  if 0 < o.moneyFrom ∧ s.balance o.fromPlayer < o.moneyFrom then (false, s)
  else if 0 < o.moneyTo ∧ s.balance o.toPlayer < o.moneyTo then (false, s)
  else (true, settleProps (settleMoney s o) o)

/-- `TradeOffer.is_valid` in `finance.py`. -/
def offerIsValid (o : TradeOffer) : Bool :=
  (decide (0 < o.moneyFrom) || !o.propertiesFrom.isEmpty || !o.cardsFrom.isEmpty) ||
  (decide (0 < o.moneyTo) || !o.propertiesTo.isEmpty || !o.cardsTo.isEmpty)

/-- `TradeManager.validate` in `finance.py`: checks non-emptiness, funds of
both sides, and that each listed property is owned by the offering side
and carries no buildings. -/
def validate (s : GState) (o : TradeOffer) : Bool × String :=
  if !offerIsValid o then (false, "Empty offer")
  else if s.balance o.fromPlayer < o.moneyFrom then (false, "Insufficient funds from sender")
  else if s.balance o.toPlayer < o.moneyTo then (false, "Insufficient funds from receiver")
  else if !o.propertiesFrom.all
      (fun p => s.owner p == some o.fromPlayer && s.buildLevel p == 0) then
    (false, "sender property invalid")
  else if !o.propertiesTo.all
      (fun p => s.owner p == some o.toPlayer && s.buildLevel p == 0) then
    (false, "receiver property invalid")
  else (true, "Valid")

/-- `TradeManager.submit` in `finance.py`: validated offers are appended to
the pending queue. -/
def submit (s : GState) (o : TradeOffer) : Bool × GState :=
  if (validate s o).1 then (true, { s with pending := s.pending ++ [o] })
  else (false, s)

/-- `TradeManager.accept` in `finance.py`: only pending offers can be
accepted; the trade is settled by the bank (which re-validates funds only)
and removed from the queue on success. -/
def accept (s : GState) (o : TradeOffer) : Bool × GState :=
  if o ∈ s.pending then
    match settleTrade s o with
    | (true, s1) => (true, { s1 with pending := s1.pending.erase o })
    | (false, s1) => (false, s1)
  else (false, s)

/-- `Bank.resolve_auction` in `finance.py` for a result dict holding a
winner, an amount and a property: debit the winner and, on success, assign
the property. -/
def resolveAuction (s : GState) (winner : Nat) (amount : Int) (prop : Nat) :
    GState :=
  match debit s winner amount "auction" with
  | (false, s1) => s1
  | (true, s1) =>
      addProperty { s1 with owner := upd s1.owner prop (some winner) } winner prop

/-- The `rent_table` dict built in the `PropertyCell` constructor in
`models.py`, read with `.get(build_level, base_rent)`. -/
def rentTable (base : Int) (lvl : Nat) : Int :=
  if lvl = 0 then base
  else if lvl = 1 then base * 2
  else if lvl = 2 then base * 4
  else if lvl = 3 then base * 6
  else if lvl = 4 then base * 8
  else if lvl = 5 then base * 10
  else base

/-- `PropertyCell.calculate_rent` in `models.py`: 0 when mortgaged or
unowned, otherwise the rent-table entry for the current build level. -/
def calculateRent (cfg : Config) (s : GState) (p : Nat) : Int :=
  if s.mortgaged p = true ∨ s.owner p = none then 0
  else rentTable (cfg.baseRent p) (s.buildLevel p)

/-- `Bank.pay_rent` in `finance.py`: zero rent short-circuits to success,
otherwise a transfer from the payer to the owner. -/
def payRentF (cfg : Config) (s : GState) (payer ow p : Nat) : Bool × GState :=
  let rent := calculateRent cfg s p
  if rent = 0 then (true, s)
  else transfer s payer ow rent "Rent"

end Fin

/-- The transient bidding session (`Auction` in `finance.py`). -/
structure AuctionState where
  prop : Option Nat
  participants : List Nat
  bids : List (Nat × Int)
  isActive : Bool
deriving Repr, DecidableEq

namespace Auction

/-- `Auction.start` in `finance.py`. -/
def start (prop : Nat) (participants : List Nat) : AuctionState :=
  { prop := some prop, participants := participants, bids := [], isActive := true }

/-- `Auction.place_bid` in `finance.py`: requires an active auction, a
participant, enough balance, and an amount strictly above the last bid
(if any). -/
def placeBid (s : GState) (a : AuctionState) (pl : Nat) (amount : Int) :
    Bool × AuctionState :=
  if a.isActive = false ∨ pl ∉ a.participants then (false, a)
  else if s.balance pl < amount then (false, a)
  else
    match a.bids.getLast? with
    | some lb =>
        if amount ≤ lb.2 then (false, a)
        else (true, { a with bids := a.bids ++ [(pl, amount)] })
    | none => (true, { a with bids := a.bids ++ [(pl, amount)] })

/-- `Auction.close` in `finance.py`: deactivates and returns the last bid
(the result dict also carries `a.prop`), or nothing when no bid was made. -/
def close (a : AuctionState) : AuctionState × Option (Nat × Int) :=
  ({ a with isActive := false }, a.bids.getLast?)

/-- Start an auction and run a sequence of bid attempts — exactly the
states reachable through the `Auction` API while it stays active. -/
def run (s : GState) (prop : Nat) (participants : List Nat)
    (attempts : List (Nat × Int)) : AuctionState :=
  attempts.foldl (fun a att => (placeBid s a att.1 att.2).2) (start prop participants)

end Auction

namespace Leg

/-- `Bank.transfer` in `bank.py`: either endpoint may be the bank
(`none`).  A named sender with too small a balance fails with no state
change; a bank sender with too small a reserve likewise.  On success both
endpoints are adjusted and one transaction entry is appended. -/
def transferL (s : GState) (fromP toP : Option Nat) (amount : Int) :
    Bool × GState :=
  match fromP with
  | some f =>
      if s.balance f < amount then (false, s)
      else
        let s1 := { s with balance := upd s.balance f (s.balance f - amount) }
        let s2 :=
          match toP with
          | some t => { s1 with balance := upd s1.balance t (s1.balance t + amount) }
          | none => { s1 with availableMoney := s1.availableMoney + amount }
        (true, { s2 with log := s2.log ++ [⟨"transfer", fromP, toP, amount, ""⟩] })
  | none =>
      if s.availableMoney < amount then (false, s)
      else
        let s1 := { s with availableMoney := s.availableMoney - amount }
        let s2 :=
          match toP with
          | some t => { s1 with balance := upd s1.balance t (s1.balance t + amount) }
          | none => { s1 with availableMoney := s1.availableMoney + amount }
        (true, { s2 with log := s2.log ++ [⟨"transfer", fromP, toP, amount, ""⟩] })

/-- One iteration of the release loop of `Bank.handle_bankruptcy` in
`bank.py`: clear the property's owner, houses and mortgage flag, and drop
it from the player's list. -/
def clearStep (pl : Nat) (st : GState) (p : Nat) : GState :=
  let st1 := { st with owner := upd st.owner p none,
                       buildLevel := upd st.buildLevel p 0,
                       mortgaged := upd st.mortgaged p false }
  { st1 with propList := upd st1.propList pl ((st1.propList pl).erase p) }

/-- `Bank.handle_bankruptcy` in `bank.py`: iterate over a copy of the
player's property list releasing each property, then zero the balance and
set the bankrupt flag. -/
def handleBankruptcy (s : GState) (pl : Nat) : GState :=
  let s1 := (s.propList pl).foldl (clearStep pl) s
  { s1 with balance := upd s1.balance pl 0,
            bankrupt := upd s1.bankrupt pl true }

/-- `Property._check_monopoly` in `property.py`: the property must have a
group and an owner, and every group member must have that owner. -/
def checkMonopolyL (cfg : Config) (s : GState) (p : Nat) : Bool :=
  match cfg.groupOf p, s.owner p with
  | some g, some _ => (cfg.groupMembers g).all (fun q => s.owner q == s.owner p)
  | _, _ => false

/-- `Property.calculate_rent` in `property.py`: 0 when mortgaged, unowned
or owned by the tenant; otherwise the flat rent, doubled under a monopoly
with no houses, or multiplied by `1 + houses` under a monopoly with
houses. -/
def calcRentL (cfg : Config) (s : GState) (p : Nat) (tenant : Nat) : Int :=
  if s.mortgaged p = true ∨ s.owner p = none ∨ s.owner p = some tenant then 0
  else
    let r := cfg.legacyRent p
    if (cfg.groupOf p).isSome ∧ checkMonopolyL cfg s p = true then
      if s.buildLevel p = 0 then r * 2 else r * (1 + (s.buildLevel p : Int))
    else r

/-- `Player.pay_rent` in `player.py`: unowned or self-owned cells and zero
rents succeed trivially; otherwise a transfer to the owner, whose failure
triggers `Bank.handle_bankruptcy` for the payer. -/
def payRent (cfg : Config) (s : GState) (payer p : Nat) : Bool × GState :=
  match s.owner p with
  | none => (true, s)
  | some ow =>
      if ow = payer then (true, s)
      else
        let rent := calcRentL cfg s p payer
        if rent = 0 then (true, s)
        else
          match transferL s (some payer) (some ow) rent with
          | (true, s1) => (true, s1)
          | (false, s1) => (false, handleBankruptcy s1 payer)

/-- `Player.buy_property` in `player.py`: refuses owned cells, pays the
price to the bank, then assigns ownership and appends to the player's
list (unguarded append). -/
def buyProperty (cfg : Config) (s : GState) (pl prop : Nat) : Bool × GState :=
  if (s.owner prop).isSome then (false, s)
  else
    match transferL s (some pl) none (cfg.price prop) with
    | (false, s1) => (false, s1)
    | (true, s1) =>
        (true, { s1 with owner := upd s1.owner prop (some pl),
                         propList := upd s1.propList pl (s1.propList pl ++ [prop]) })

/-- `Property.mortgage` in `property.py`: sets the flag when unmortgaged
and house-free (the cash value is returned to the caller, not credited
here). -/
def mortgageL (s : GState) (p : Nat) : GState :=
  if s.mortgaged p = false ∧ s.buildLevel p = 0 then
    { s with mortgaged := upd s.mortgaged p true }
  else s

/-- `Player.move` in `player.py`: advance modulo the board size and credit
the salary from the bank on a wrap. -/
def moveL (s : GState) (pl : Nat) (steps size : Nat) : GState :=
  let oldP := s.position pl
  let newP := (oldP + steps) % size
  let s1 := { s with position := upd s.position pl newP }
  if newP < oldP ∨ size ≤ oldP + steps then (transferL s1 none (some pl) 200).2
  else s1

/-- The operations of the legacy prototype as a step relation, used to
state that the bankrupt flag is terminal. -/
inductive LegacyStep (cfg : Config) : GState → GState → Prop where
  | transferStep (s : GState) (fromP toP : Option Nat) (amount : Int) :
      LegacyStep cfg s (transferL s fromP toP amount).2
  | payRentStep (s : GState) (payer p : Nat) :
      LegacyStep cfg s (payRent cfg s payer p).2
  | buyStep (s : GState) (pl prop : Nat) :
      LegacyStep cfg s (buyProperty cfg s pl prop).2
  | mortgageStep (s : GState) (p : Nat) :
      LegacyStep cfg s (mortgageL s p)
  | moveStep (s : GState) (pl steps size : Nat) :
      LegacyStep cfg s (moveL s pl steps size)
  | bankruptcyStep (s : GState) (pl : Nat) :
      LegacyStep cfg s (handleBankruptcy s pl)

end Leg

namespace Fin

/-- Board cells by kind, as dispatched in `Cell.on_land` of `models.py`
and `TurnManager.apply_cell_effects` of `game.py`. -/
inductive Cell where
  | start
  | property (p : Nat)
  | tax (amount : Int)
  | jail
  | goToJail
deriving Repr, DecidableEq

/-- The turn-engine state: the roster and current index of `GameSession`,
the doubles counter of `TurnManager`, the pause flag, the board, and the
shared game state. -/
structure Session where
  players : List Nat
  idx : Nat
  dcount : Nat
  isPaused : Bool
  board : List Cell
  st : GState

/-- `GameSession.get_current_player`. -/
def currentPlayer (ss : Session) : Nat := ss.players.getD ss.idx 0

/-- `TurnManager.send_to_jail` in `game.py`: set the jail flag, reset the
jail counter to 3 and relocate to cell 10. -/
def sendToJail (s : GState) (pl : Nat) : GState :=
  { s with inJail := upd s.inJail pl true,
           jailTurnsLeft := upd s.jailTurnsLeft pl 3,
           position := upd s.position pl 10 }

/-- `TurnManager.start_turn` in `game.py`: reset the doubles counter; a
jailed player's counter is decremented, and at zero or below the player is
released. -/
def startTurn (ss : Session) (pl : Nat) : Session :=
  let ss1 := { ss with dcount := 0 }
  if ss1.st.inJail pl = true then
    let j := ss1.st.jailTurnsLeft pl - 1
    let s1 := { ss1.st with jailTurnsLeft := upd ss1.st.jailTurnsLeft pl j }
    if j ≤ 0 then { ss1 with st := { s1 with inJail := upd s1.inJail pl false } }
    else { ss1 with st := s1 }
  else ss1

/-- A dice result as produced by `Dice.roll` in `models.py`. -/
structure Roll where
  d1 : Nat
  d2 : Nat
deriving Repr, DecidableEq

/-- `TurnManager.roll_dice` in `game.py`: increment the doubles counter on
a double. -/
def rollDice (ss : Session) (r : Roll) : Session :=
  if r.d1 = r.d2 then { ss with dcount := ss.dcount + 1 } else ss

/-- `Board.next_position` in `models.py`. -/
def nextPosition (size cur steps : Nat) : Nat := (cur + steps) % size

/-- `TurnManager.move_player` in `game.py`: compute the new position,
credit the salary when the position wrapped below the old one, move, and
return the landed cell. -/
def movePlayer (ss : Session) (pl steps : Nat) : Session × Cell :=
  let oldP := ss.st.position pl
  let newP := nextPosition ss.board.length oldP steps
  let s1 := if newP < oldP then credit ss.st pl 200 "salary" else ss.st
  let s2 := { s1 with position := upd s1.position pl newP }
  ({ ss with st := s2 }, ss.board.getD newP Cell.start)

/-- `TurnManager.apply_cell_effects` in `game.py`: unowned properties are
bought whenever the player can afford them (the demo auto-buy), rent is
collected on foreign properties, taxes are debited, go-to-jail jails;
start, jail and own-property cells have no effect. -/
def applyCellEffects (cfg : Config) (ss : Session) (pl : Nat) (c : Cell) :
    Session :=
  match c with
  | Cell.property p =>
      match ss.st.owner p with
      | none =>
          if cfg.price p ≤ ss.st.balance pl then
            { ss with st := (purchaseProperty cfg ss.st pl p).2 }
          else ss
      | some ow =>
          if ow = pl then ss
          else { ss with st := (payRentF cfg ss.st pl ow p).2 }
  | Cell.tax t => { ss with st := (debit ss.st pl t "tax").2 }
  | Cell.goToJail => { ss with st := sendToJail ss.st pl }
  | Cell.start => ss
  | Cell.jail => ss

/-- `GameSession.end_turn` in `game.py`: advance the index by one modulo
the roster size — with no regard for bankruptcy. -/
def sessionEndTurn (ss : Session) : Session :=
  { ss with idx := (ss.idx + 1) % ss.players.length }

/-- `TurnManager.end_turn` in `game.py`: after three or more doubles this
turn, jail the current player; then hand off to the session. -/
def tmEndTurn (ss : Session) : Session :=
  let ss1 :=
    if 3 ≤ ss.dcount then { ss with st := sendToJail ss.st (currentPlayer ss) }
    else ss
  sessionEndTurn ss1

/-- `GameSession.play_turn` in `game.py` with the dice result passed in:
start the turn, and unless the player is (still) jailed, roll, move and
resolve the landed cell; finally end the turn. -/
def playTurn (cfg : Config) (ss : Session) (r : Roll) : Session :=
  if ss.isPaused = true then ss
  else
    let cur := currentPlayer ss
    let ss1 := startTurn ss cur
    let ss2 :=
      if ss1.st.inJail cur = true then ss1
      else
        let ss1a := rollDice ss1 r
        let mv := movePlayer ss1a cur (r.d1 + r.d2)
        applyCellEffects cfg mv.1 cur mv.2
    tmEndTurn ss2

/-- The demo board built by `GameSession._create_board` in `game.py`,
cells in insertion order (properties numbered 1..9 in creation order). -/
def demoBoard : List Cell :=
  [Cell.start, Cell.property 1, Cell.property 2, Cell.tax 200,
   Cell.property 3, Cell.property 4, Cell.property 5, Cell.jail,
   Cell.property 6, Cell.property 7, Cell.property 8, Cell.tax 100,
   Cell.property 9, Cell.goToJail]

/-- Prices and base rents of the demo board's properties
(`GameSession._create_board`); colour groups are not needed by the
embedded turn flow. -/
def demoConfig : Config :=
  { price := fun p =>
      if p = 1 then 60 else if p = 2 then 60 else if p = 3 then 100
      else if p = 4 then 100 else if p = 5 then 120 else if p = 6 then 140
      else if p = 7 then 140 else if p = 8 then 160 else if p = 9 then 200
      else 0
    baseRent := fun p =>
      if p = 1 then 2 else if p = 2 then 4 else if p = 3 then 6
      else if p = 4 then 6 else if p = 5 then 8 else if p = 6 then 10
      else if p = 7 then 10 else if p = 8 then 12 else if p = 9 then 16
      else 0
    legacyRent := fun _ => 0
    groupOf := fun _ => none
    groupMembers := fun _ => [] }

end Fin

/-- A session-start game state: default balances of 1500 (`models.py` and
`player.py` constructors), no owned properties, no pending offers, the
bank reserve of 1000000. -/
def baseState : GState :=
  { balance := fun _ => 1500
    propList := fun _ => []
    owner := fun _ => none
    buildLevel := fun _ => 0
    mortgaged := fun _ => false
    position := fun _ => 0
    inJail := fun _ => false
    jailTurnsLeft := fun _ => 0
    bankrupt := fun _ => false
    availableMoney := 1000000
    log := []
    pending := [] }

theorem foldl_invariant {α β γ : Type} (g : α → β) (step : α → γ → α)
    (hstep : ∀ s p, g (step s p) = g s) :
    ∀ (l : List γ) (s : α), g (l.foldl step s) = g s := by
  intro l
  induction l with
  | nil => intro s; rfl
  | cons q tl ih => intro s; rw [List.foldl_cons, ih, hstep]

namespace Fin

@[simp] theorem removeProperty_owner (s : GState) (pl q : Nat) :
    (removeProperty s pl q).owner = s.owner := by
  by_cases h : q ∈ s.propList pl <;> simp [removeProperty, h]

@[simp] theorem addProperty_owner (s : GState) (pl q : Nat) :
    (addProperty s pl q).owner = s.owner := by
  by_cases h : q ∈ s.propList pl <;> simp [addProperty, h]

@[simp] theorem removeProperty_balance (s : GState) (pl q : Nat) :
    (removeProperty s pl q).balance = s.balance := by
  by_cases h : q ∈ s.propList pl <;> simp [removeProperty, h]

@[simp] theorem addProperty_balance (s : GState) (pl q : Nat) :
    (addProperty s pl q).balance = s.balance := by
  by_cases h : q ∈ s.propList pl <;> simp [addProperty, h]

@[simp] theorem giveProp_owner (s : GState) (f t p : Nat) :
    (giveProp s f t p).owner = upd s.owner p (some t) := by
  simp [giveProp]

@[simp] theorem giveProp_balance (s : GState) (f t p : Nat) :
    (giveProp s f t p).balance = s.balance := by
  simp [giveProp]

@[simp] theorem transfer_owner (s : GState) (a b : Nat) (amt : Int) (r : String) :
    (transfer s a b amt r).2.owner = s.owner := by
  by_cases h : s.balance a < amt <;> simp [transfer, h, adjustBalance]

@[simp] theorem transfer_propList (s : GState) (a b : Nat) (amt : Int) (r : String) :
    (transfer s a b amt r).2.propList = s.propList := by
  by_cases h : s.balance a < amt <;> simp [transfer, h, adjustBalance]

theorem foldl_give_owner (f t : Nat) (l : List Nat) (s : GState) (p : Nat) :
    (l.foldl (fun st q => giveProp st f t q) s).owner p =
      if p ∈ l then some t else s.owner p := by
  induction l generalizing s with
  | nil => simp
  | cons q tl ih =>
      rw [List.foldl_cons, ih]
      by_cases hmem : p ∈ tl <;> by_cases hq : p = q <;>
        simp [hmem, hq]

theorem foldl_give_balance (f t : Nat) (l : List Nat) (s : GState) :
    (l.foldl (fun st q => giveProp st f t q) s).balance = s.balance :=
  foldl_invariant GState.balance _ (fun s p => giveProp_balance s f t p) l s

/-- Pointwise balance effect of a successful `Bank.transfer`. -/
theorem transfer_balance (s : GState) (a b : Nat) (amt : Int) (r : String)
    (h : ¬ s.balance a < amt) (hne : a ≠ b) :
    ∀ q, (transfer s a b amt r).2.balance q =
      if q = a then s.balance a - amt
      else if q = b then s.balance b + amt
      else s.balance q := by
  intro q
  rw [transfer, if_neg h]
  by_cases hqa : q = a <;> by_cases hqb : q = b <;>
    simp_all [adjustBalance, upd, Ne.symm hne] <;> omega

@[simp] theorem settleMoney_owner (s : GState) (o : TradeOffer) :
    (settleMoney s o).owner = s.owner := by
  rw [settleMoney]
  by_cases hf : 0 < o.moneyFrom <;> by_cases ht : 0 < o.moneyTo <;>
    simp [hf, ht]

@[simp] theorem settleMoney_propList (s : GState) (o : TradeOffer) :
    (settleMoney s o).propList = s.propList := by
  rw [settleMoney]
  by_cases hf : 0 < o.moneyFrom <;> by_cases ht : 0 < o.moneyTo <;>
    simp [hf, ht]

/-- Pointwise balance effect of the money-exchange section when both
up-front funds checks of `settle_trade` pass: the inner transfers cannot
fail, and the net change is the signed sum of the two legs. -/
theorem settleMoney_balance (s : GState) (o : TradeOffer)
    (hne : o.fromPlayer ≠ o.toPlayer)
    (h1 : 0 < o.moneyFrom → o.moneyFrom ≤ s.balance o.fromPlayer)
    (h2 : 0 < o.moneyTo → o.moneyTo ≤ s.balance o.toPlayer) :
    ∀ q, (settleMoney s o).balance q =
      if q = o.fromPlayer then
        s.balance o.fromPlayer - (if 0 < o.moneyFrom then o.moneyFrom else 0)
          + (if 0 < o.moneyTo then o.moneyTo else 0)
      else if q = o.toPlayer then
        s.balance o.toPlayer + (if 0 < o.moneyFrom then o.moneyFrom else 0)
          - (if 0 < o.moneyTo then o.moneyTo else 0)
      else s.balance q := by
  intro q
  rw [settleMoney]
  by_cases hf : 0 < o.moneyFrom <;> by_cases ht : 0 < o.moneyTo
  · have g1 : ¬ s.balance o.fromPlayer < o.moneyFrom := not_lt.mpr (h1 hf)
    have hb1 := transfer_balance s o.fromPlayer o.toPlayer o.moneyFrom "Trade" g1 hne
    have g2 : ¬ (transfer s o.fromPlayer o.toPlayer o.moneyFrom "Trade").2.balance
        o.toPlayer < o.moneyTo := by
      rw [hb1]
      simp only [Ne.symm hne, if_false, if_neg (Ne.symm hne), if_pos rfl]
      have := h2 ht
      omega
    have hb2 := transfer_balance _ o.toPlayer o.fromPlayer o.moneyTo "Trade" g2
      (Ne.symm hne)
    simp only [hf, ht, if_true, hb2, hb1]
    by_cases hqf : q = o.fromPlayer <;> by_cases hqt : q = o.toPlayer <;>
      simp_all [Ne.symm hne] <;> omega
  · have g1 : ¬ s.balance o.fromPlayer < o.moneyFrom := not_lt.mpr (h1 hf)
    have hb1 := transfer_balance s o.fromPlayer o.toPlayer o.moneyFrom "Trade" g1 hne
    simp only [hf, ht, if_true, if_false, hb1]
    by_cases hqf : q = o.fromPlayer <;> by_cases hqt : q = o.toPlayer <;>
      simp_all [Ne.symm hne] <;> omega
  · have g2 : ¬ s.balance o.toPlayer < o.moneyTo := not_lt.mpr (h2 ht)
    have hb2 := transfer_balance s o.toPlayer o.fromPlayer o.moneyTo "Trade" g2
      (Ne.symm hne)
    simp only [hf, ht, if_true, if_false, hb2]
    by_cases hqf : q = o.fromPlayer <;> by_cases hqt : q = o.toPlayer <;>
      simp_all [Ne.symm hne] <;> omega
  · simp only [hf, ht, if_false]
    by_cases hqf : q = o.fromPlayer <;> by_cases hqt : q = o.toPlayer <;>
      simp_all [Ne.symm hne] <;> omega

/-- Pointwise ownership effect of the property-exchange loops: properties
requested from the receiver end at the sender, remaining offered
properties end at the receiver, all others are untouched — whatever their
previous owner was. -/
theorem settleProps_owner (s : GState) (o : TradeOffer) (p : Nat) :
    (settleProps s o).owner p =
      if p ∈ o.propertiesTo then some o.fromPlayer
      else if p ∈ o.propertiesFrom then some o.toPlayer
      else s.owner p := by
  rw [settleProps, foldl_give_owner]
  by_cases h2 : p ∈ o.propertiesTo <;> simp [h2, foldl_give_owner]

@[simp] theorem settleProps_balance (s : GState) (o : TradeOffer) :
    (settleProps s o).balance = s.balance := by
  rw [settleProps, foldl_give_balance, foldl_give_balance]

end Fin

/-- C1 counterexample: the claim quantifies over every player-to-player
`transfer(from, to, amount)`, but a self-transfer (`from = to`, allowed by
both implementations) returns success while leaving the balance unchanged
— it does not decrease by the amount. -/
theorem transfer_self_counterexample :
    (Fin.transfer baseState 0 0 1 "r").1 = true ∧
    (Fin.transfer baseState 0 0 1 "r").2.balance 0 = 1500 ∧
    baseState.balance 0 - 1 = 1499 ∧
    (Leg.transferL baseState (some 0) (some 0) 1).1 = true ∧
    (Leg.transferL baseState (some 0) (some 0) 1).2.balance 0 = 1500 := by
  refine ⟨rfl, by decide, by decide, rfl, by decide⟩

/-- C1 (amended: for two distinct players): both `Bank.transfer`
implementations succeed exactly when the sender's balance covers the
amount; on success the sender's balance drops by exactly the amount, the
receiver's rises by exactly the amount and one log entry is appended; on
failure the whole state — balances and log included — is unchanged. -/
theorem transfer_spec (s : GState) (a b : Nat) (amt : Int) (r : String)
    (h0 : 0 ≤ amt) (hne : a ≠ b) :
    ((Fin.transfer s a b amt r).1 = true ↔ amt ≤ s.balance a) ∧
    ((Fin.transfer s a b amt r).1 = true →
      (Fin.transfer s a b amt r).2.balance a = s.balance a - amt ∧
      (Fin.transfer s a b amt r).2.balance b = s.balance b + amt ∧
      (Fin.transfer s a b amt r).2.log =
        s.log ++ [⟨"transfer", some a, some b, amt, r⟩]) ∧
    ((Fin.transfer s a b amt r).1 = false → (Fin.transfer s a b amt r).2 = s) ∧
    ((Leg.transferL s (some a) (some b) amt).1 = true ↔ amt ≤ s.balance a) ∧
    ((Leg.transferL s (some a) (some b) amt).1 = true →
      (Leg.transferL s (some a) (some b) amt).2.balance a = s.balance a - amt ∧
      (Leg.transferL s (some a) (some b) amt).2.balance b = s.balance b + amt ∧
      (Leg.transferL s (some a) (some b) amt).2.log =
        s.log ++ [⟨"transfer", some a, some b, amt, ""⟩]) ∧
    ((Leg.transferL s (some a) (some b) amt).1 = false →
      (Leg.transferL s (some a) (some b) amt).2 = s) := by
  by_cases h : s.balance a < amt
  · refine ⟨?_, ?_, ?_, ?_, ?_, ?_⟩ <;>
      simp [Fin.transfer, Leg.transferL, h] <;> omega
  · refine ⟨?_, ?_, ?_, ?_, ?_, ?_⟩ <;>
      simp [Fin.transfer, Leg.transferL, Fin.adjustBalance, upd, h, hne,
        Ne.symm hne] <;> omega

/-- C1 witness: the amended transfer specification evaluated between
players 0 and 1 for amount 300. -/
theorem transfer_spec_witness :
    (0 : Int) ≤ 300 ∧ (0 : Nat) ≠ 1 ∧
    ((Fin.transfer baseState 0 1 300 "r").1 = true ↔
      (300 : Int) ≤ baseState.balance 0) :=
  ⟨by decide, by decide, (transfer_spec baseState 0 1 300 "r" (by decide) (by decide)).1⟩

/-- A successful settlement of `settle_trade` reaches the `(True, ...)`
branch exactly when neither up-front money check trips. -/
theorem settleTrade_success_iff (s : GState) (o : TradeOffer) :
    (Fin.settleTrade s o).1 = true ↔
      (¬ (0 < o.moneyFrom ∧ s.balance o.fromPlayer < o.moneyFrom) ∧
       ¬ (0 < o.moneyTo ∧ s.balance o.toPlayer < o.moneyTo)) := by
  by_cases h1 : 0 < o.moneyFrom ∧ s.balance o.fromPlayer < o.moneyFrom
  · simp [Fin.settleTrade, h1]
  · by_cases h2 : 0 < o.moneyTo ∧ s.balance o.toPlayer < o.moneyTo
    · simp [Fin.settleTrade, h1, h2]
    · simp [Fin.settleTrade, h1, h2]

/-- When `settle_trade` fails its funds re-check, nothing at all has been
mutated: the returned state is the input state itself, and `accept` then
also returns failure with the untouched state. -/
theorem settleTrade_fail_noop (s : GState) (o : TradeOffer)
    (hfail : (0 < o.moneyFrom ∧ s.balance o.fromPlayer < o.moneyFrom) ∨
      (0 < o.moneyTo ∧ s.balance o.toPlayer < o.moneyTo)) :
    Fin.settleTrade s o = (false, s) ∧ Fin.accept s o = (false, s) := by
  have hs : Fin.settleTrade s o = (false, s) := by
    rw [Fin.settleTrade]
    rcases hfail with h | h
    · rw [if_pos h]
    · by_cases h1 : 0 < o.moneyFrom ∧ s.balance o.fromPlayer < o.moneyFrom
      · rw [if_pos h1]
      · rw [if_neg h1, if_pos h]
  refine ⟨hs, ?_⟩
  rw [Fin.accept]
  by_cases hp : o ∈ s.pending
  · rw [if_pos hp, hs]
  · rw [if_neg hp]

/-- C2: trade acceptance is atomic.  If either money leg fails the funds
re-check at acceptance time — in particular when the second money leg
exceeds the receiver's current balance — both `settle_trade` and `accept`
return failure with the state entirely unchanged (no balances, no
ownership, no lists, no log).  When both checks pass, settlement succeeds,
both money legs land (stated for distinct parties) and every listed
property is reassigned to its counterparty. -/
theorem trade_acceptance_atomic (s : GState) (o : TradeOffer) :
    (((0 < o.moneyFrom ∧ s.balance o.fromPlayer < o.moneyFrom) ∨
      (0 < o.moneyTo ∧ s.balance o.toPlayer < o.moneyTo)) →
      Fin.settleTrade s o = (false, s) ∧ Fin.accept s o = (false, s)) ∧
    (o.fromPlayer ≠ o.toPlayer →
     (0 < o.moneyFrom → o.moneyFrom ≤ s.balance o.fromPlayer) →
     (0 < o.moneyTo → o.moneyTo ≤ s.balance o.toPlayer) →
      (Fin.settleTrade s o).1 = true ∧
      (Fin.settleTrade s o).2.balance o.fromPlayer =
        s.balance o.fromPlayer - (if 0 < o.moneyFrom then o.moneyFrom else 0)
          + (if 0 < o.moneyTo then o.moneyTo else 0) ∧
      (Fin.settleTrade s o).2.balance o.toPlayer =
        s.balance o.toPlayer + (if 0 < o.moneyFrom then o.moneyFrom else 0)
          - (if 0 < o.moneyTo then o.moneyTo else 0) ∧
      (∀ p, (Fin.settleTrade s o).2.owner p =
        if p ∈ o.propertiesTo then some o.fromPlayer
        else if p ∈ o.propertiesFrom then some o.toPlayer
        else s.owner p)) := by
  refine ⟨settleTrade_fail_noop s o, ?_⟩
  intro hne h1 h2
  have hc1 : ¬ (0 < o.moneyFrom ∧ s.balance o.fromPlayer < o.moneyFrom) := by
    rintro ⟨hp, hlt⟩; exact absurd (h1 hp) (not_le.mpr hlt)
  have hc2 : ¬ (0 < o.moneyTo ∧ s.balance o.toPlayer < o.moneyTo) := by
    rintro ⟨hp, hlt⟩; exact absurd (h2 hp) (not_le.mpr hlt)
  have hset : Fin.settleTrade s o =
      (true, Fin.settleProps (Fin.settleMoney s o) o) := by
    rw [Fin.settleTrade, if_neg hc1, if_neg hc2]
  rw [hset]
  have hbal := Fin.settleMoney_balance s o hne h1 h2
  refine ⟨rfl, ?_, ?_, ?_⟩
  · simp only [Fin.settleProps_balance, hbal o.fromPlayer, if_pos rfl, if_true]
  · simp only [Fin.settleProps_balance, hbal o.toPlayer, if_pos rfl,
      if_neg (Ne.symm hne), if_true]
  · intro p
    simp only [Fin.settleProps_owner, Fin.settleMoney_owner]

/-- C2 witness: an offer whose second money leg (2000) exceeds the
receiver's balance (1500) settles to failure with the state unchanged. -/
theorem trade_acceptance_atomic_witness :
    ((0 < (0 : Int) ∧ baseState.balance 0 < 0) ∨
     (0 < (2000 : Int) ∧ baseState.balance 1 < 2000)) ∧
    Fin.settleTrade baseState ⟨0, 1, 0, 2000, [3], [], [], []⟩ =
      (false, baseState) :=
  ⟨Or.inr (by decide),
   ((trade_acceptance_atomic baseState ⟨0, 1, 0, 2000, [3], [], [], []⟩).1
     (Or.inr (by decide))).1⟩

/-- A stale state for C10: property 7 is owned by player 2, yet an offer
in which player 0 offers property 7 to player 1 still settles. -/
def staleState : GState := { baseState with owner := upd baseState.owner 7 (some 2) }

/-- The stale offer for C10: player 0 offers property 7 (not theirs) to
player 1, no money involved. -/
def staleOffer : TradeOffer := ⟨0, 1, 0, 0, [7], [], [], []⟩

/-- C10: `settle_trade` re-checks only the two money legs — it succeeds
exactly when both legs are covered by current balances, and then
reassigns every listed property to the counterparty unconditionally:
no hypothesis about current ownership or build level is needed, and a
concrete stale offer that `validate` rejects (property no longer owned by
the sender) still settles and moves the property. -/
theorem settle_rechecks_money_only (s : GState) (o : TradeOffer) :
    ((Fin.settleTrade s o).1 = true ↔
      ((0 < o.moneyFrom → o.moneyFrom ≤ s.balance o.fromPlayer) ∧
       (0 < o.moneyTo → o.moneyTo ≤ s.balance o.toPlayer))) ∧
    ((Fin.settleTrade s o).1 = true →
      (∀ p ∈ o.propertiesFrom, p ∉ o.propertiesTo →
        (Fin.settleTrade s o).2.owner p = some o.toPlayer) ∧
      (∀ p ∈ o.propertiesTo,
        (Fin.settleTrade s o).2.owner p = some o.fromPlayer)) ∧
    ((Fin.validate staleState staleOffer).1 = false ∧
      staleState.owner 7 ≠ some staleOffer.fromPlayer ∧
      (Fin.settleTrade staleState staleOffer).1 = true ∧
      (Fin.settleTrade staleState staleOffer).2.owner 7 = some 1) := by
  refine ⟨?_, ?_, by decide, by decide, by decide, by decide⟩
  · rw [settleTrade_success_iff]
    omega
  · intro htrue
    have h := (settleTrade_success_iff s o).mp htrue
    have hset : Fin.settleTrade s o =
        (true, Fin.settleProps (Fin.settleMoney s o) o) := by
      rw [Fin.settleTrade, if_neg h.1, if_neg h.2]
    rw [hset]
    constructor
    · intro p hpf hpt
      simp only [Fin.settleProps_owner, Fin.settleMoney_owner, if_neg hpt,
        if_pos hpf]
    · intro p hpt
      simp only [Fin.settleProps_owner, Fin.settleMoney_owner, if_pos hpt]

/-- C10 witness: a trivial no-money offer settles successfully by the
money-only characterization. -/
theorem settle_rechecks_money_only_witness :
    (Fin.settleTrade baseState staleOffer).1 = true :=
  (settle_rechecks_money_only baseState staleOffer).1.mpr
    ⟨by decide, by decide⟩

theorem getLast?_mem_self {α : Type} :
    ∀ (l : List α) (x : α), l.getLast? = some x → x ∈ l := by
  intro l
  induction l with
  | nil => intro x hx; simp at hx
  | cons a t ih =>
      intro x hx
      cases t with
      | nil => simp_all
      | cons b t2 =>
          rw [List.getLast?_cons_cons] at hx
          exact List.mem_cons_of_mem a (ih x hx)

/-- In a strictly increasing bid list the last bid dominates all bids. -/
theorem chain_last_max :
    ∀ (l : List (Nat × Int)), l.Chain' (fun x y => x.2 < y.2) →
      ∀ lb, l.getLast? = some lb → ∀ x ∈ l, x.2 ≤ lb.2 := by
  intro l
  induction l with
  | nil => intro _ lb hlb; simp at hlb
  | cons a t ih =>
      intro hch lb hlb x hx
      cases t with
      | nil =>
          simp only [List.getLast?_singleton, Option.some.injEq] at hlb
          rcases List.mem_singleton.mp hx with rfl
          rw [← hlb]
      | cons b t2 =>
          rw [List.getLast?_cons_cons] at hlb
          rw [List.chain'_cons] at hch
          rcases List.mem_cons.mp hx with rfl | hx2
          · have hb := ih hch.2 lb hlb b (List.mem_cons_self b t2)
            exact le_trans (le_of_lt hch.1) hb
          · exact ih hch.2 lb hlb x hx2

namespace Auction

@[simp] theorem placeBid_isActive (s : GState) (a : AuctionState) (pl : Nat)
    (amt : Int) : ((placeBid s a pl amt).2).isActive = a.isActive := by
  rw [placeBid]
  by_cases h1 : a.isActive = false ∨ pl ∉ a.participants
  · rw [if_pos h1]
  · rw [if_neg h1]
    by_cases h2 : s.balance pl < amt
    · rw [if_pos h2]
    · rw [if_neg h2]
      cases h : a.bids.getLast? with
      | none => rfl
      | some lb => by_cases h3 : amt ≤ lb.2 <;> simp [h3]

@[simp] theorem placeBid_participants (s : GState) (a : AuctionState) (pl : Nat)
    (amt : Int) : ((placeBid s a pl amt).2).participants = a.participants := by
  rw [placeBid]
  by_cases h1 : a.isActive = false ∨ pl ∉ a.participants
  · rw [if_pos h1]
  · rw [if_neg h1]
    by_cases h2 : s.balance pl < amt
    · rw [if_pos h2]
    · rw [if_neg h2]
      cases h : a.bids.getLast? with
      | none => rfl
      | some lb => by_cases h3 : amt ≤ lb.2 <;> simp [h3]

/-- Each accepted bid strictly exceeds the previous last bid, so the bid
list stays strictly increasing. -/
theorem placeBid_chain (s : GState) (a : AuctionState) (pl : Nat) (amt : Int)
    (h : a.bids.Chain' (fun x y => x.2 < y.2)) :
    ((placeBid s a pl amt).2).bids.Chain' (fun x y => x.2 < y.2) := by
  rw [placeBid]
  by_cases h1 : a.isActive = false ∨ pl ∉ a.participants
  · rw [if_pos h1]; exact h
  · rw [if_neg h1]
    by_cases h2 : s.balance pl < amt
    · rw [if_pos h2]; exact h
    · rw [if_neg h2]
      cases hl : a.bids.getLast? with
      | none =>
          have : a.bids = [] := List.getLast?_eq_none_iff.mp hl
          simp [this]
      | some lb =>
          by_cases h3 : amt ≤ lb.2
          · simp only [if_pos h3]; exact h
          · simp only [if_neg h3]
            refine List.chain'_append.mpr ⟨h, List.chain'_singleton _, ?_⟩
            intro x hx y hy
            simp only [List.head?_cons, Option.mem_def, Option.some.injEq] at hy
            rw [hl] at hx
            simp only [Option.mem_def, Option.some.injEq] at hx
            subst hx; subst hy
            exact lt_of_not_le h3

theorem run_chain (s : GState) (prop : Nat) (parts : List Nat)
    (attempts : List (Nat × Int)) :
    (run s prop parts attempts).bids.Chain' (fun x y => x.2 < y.2) := by
  rw [run]
  have : ∀ (l : List (Nat × Int)) (a : AuctionState),
      a.bids.Chain' (fun x y => x.2 < y.2) →
      (l.foldl (fun a att => (placeBid s a att.1 att.2).2) a).bids.Chain'
        (fun x y => x.2 < y.2) := by
    intro l
    induction l with
    | nil => intro a ha; exact ha
    | cons q t ih =>
        intro a ha
        rw [List.foldl_cons]
        exact ih _ (placeBid_chain s a q.1 q.2 ha)
  exact this attempts (start prop parts) (List.chain'_nil)

theorem run_isActive (s : GState) (prop : Nat) (parts : List Nat)
    (attempts : List (Nat × Int)) :
    (run s prop parts attempts).isActive = true := by
  rw [run]
  rw [foldl_invariant AuctionState.isActive _
    (fun a att => placeBid_isActive s a att.1 att.2) attempts (start prop parts)]
  rfl

theorem run_participants (s : GState) (prop : Nat) (parts : List Nat)
    (attempts : List (Nat × Int)) :
    (run s prop parts attempts).participants = parts := by
  rw [run]
  rw [foldl_invariant AuctionState.participants _
    (fun a att => placeBid_participants s a att.1 att.2) attempts (start prop parts)]
  rfl

/-- Success characterization of `place_bid` on an active auction. -/
theorem placeBid_success_iff (s : GState) (a : AuctionState) (pl : Nat)
    (amt : Int) (hact : a.isActive = true) :
    (placeBid s a pl amt).1 = true ↔
      (pl ∈ a.participants ∧ amt ≤ s.balance pl ∧
       ∀ lb, a.bids.getLast? = some lb → lb.2 < amt) := by
  rw [placeBid]
  by_cases h1 : a.isActive = false ∨ pl ∉ a.participants
  · rcases h1 with h1 | h1
    · rw [hact] at h1; exact absurd h1 (by simp)
    · rw [if_pos (Or.inr h1)]
      simp [h1]
  · rw [if_neg h1]
    push_neg at h1
    by_cases h2 : s.balance pl < amt
    · rw [if_pos h2]
      refine iff_of_false (by simp) ?_
      rintro ⟨_, hle, _⟩
      exact absurd hle (not_le.mpr h2)
    · rw [if_neg h2]
      cases hl : a.bids.getLast? with
      | none => simp [h1.2, not_lt.mp h2]
      | some lb =>
          by_cases h3 : amt ≤ lb.2
          · simp only [if_pos h3]
            refine iff_of_false (by simp) ?_
            rintro ⟨_, _, hlast⟩
            exact absurd (hlast lb rfl) (not_lt.mpr h3)
          · simp only [if_neg h3]
            constructor
            · intro
              refine ⟨h1.2, not_lt.mp h2, ?_⟩
              intro lb2 hlb2
              cases hlb2
              exact lt_of_not_le h3
            · intro
              trivial

end Auction

/-- C8: in every auction state reached by `start` followed by any sequence
of `place_bid` attempts, the recorded bids are strictly increasing; while
active, a bid succeeds exactly when the bidder is a participant, has the
bid amount on balance, and strictly exceeds the last (highest) recorded
bid — a first bid only needs solvency; and `close` deactivates the auction
and returns the bidder and amount of the highest bid, or nothing when no
bid was recorded. -/
theorem auction_reachable_spec (s : GState) (prop : Nat) (parts : List Nat)
    (attempts : List (Nat × Int)) :
    (Auction.run s prop parts attempts).bids.Chain' (fun x y => x.2 < y.2) ∧
    (∀ pl amt,
      (Auction.placeBid s (Auction.run s prop parts attempts) pl amt).1 = true ↔
        (pl ∈ parts ∧ amt ≤ s.balance pl ∧
         ∀ lb, (Auction.run s prop parts attempts).bids.getLast? = some lb →
           lb.2 < amt)) ∧
    ((Auction.close (Auction.run s prop parts attempts)).1.isActive = false) ∧
    ((Auction.close (Auction.run s prop parts attempts)).2 = none ↔
      (Auction.run s prop parts attempts).bids = []) ∧
    (∀ w m, (Auction.close (Auction.run s prop parts attempts)).2 = some (w, m) →
      (w, m) ∈ (Auction.run s prop parts attempts).bids ∧
      ∀ x ∈ (Auction.run s prop parts attempts).bids, x.2 ≤ m) := by
  refine ⟨Auction.run_chain s prop parts attempts, ?_, rfl, ?_, ?_⟩
  · intro pl amt
    rw [Auction.placeBid_success_iff s _ pl amt
      (Auction.run_isActive s prop parts attempts),
      Auction.run_participants s prop parts attempts]
  · rw [Auction.close]
    exact List.getLast?_eq_none_iff
  · intro w m hwm
    rw [Auction.close] at hwm
    refine ⟨getLast?_mem_self _ _ hwm, ?_⟩
    exact chain_last_max _ (Auction.run_chain s prop parts attempts) (w, m) hwm

/-- C8 witness: after bids (0,100) and (1,120), a bid of 130 by player 1
is accepted by the success characterization. -/
theorem auction_reachable_spec_witness :
    (Auction.placeBid baseState
      (Auction.run baseState 3 [0, 1] [(0, 100), (1, 120)]) 1 130).1 = true :=
  ((auction_reachable_spec baseState 3 [0, 1] [(0, 100), (1, 120)]).2.1 1 130).mpr
    ⟨by decide, by decide, by intro lb hlb; cases hlb; decide⟩

namespace Leg

@[simp] theorem clearStep_owner (pl : Nat) (st : GState) (p q : Nat) :
    (clearStep pl st p).owner q = if q = p then none else st.owner q := by
  simp [clearStep, upd]

@[simp] theorem clearStep_buildLevel (pl : Nat) (st : GState) (p q : Nat) :
    (clearStep pl st p).buildLevel q = if q = p then 0 else st.buildLevel q := by
  simp [clearStep, upd]

@[simp] theorem clearStep_mortgaged (pl : Nat) (st : GState) (p q : Nat) :
    (clearStep pl st p).mortgaged q = if q = p then false else st.mortgaged q := by
  simp [clearStep, upd]

@[simp] theorem clearStep_balance (pl : Nat) (st : GState) (p : Nat) :
    (clearStep pl st p).balance = st.balance := rfl

@[simp] theorem clearStep_bankrupt (pl : Nat) (st : GState) (p : Nat) :
    (clearStep pl st p).bankrupt = st.bankrupt := rfl

@[simp] theorem clearStep_propList_self (pl : Nat) (st : GState) (p : Nat) :
    (clearStep pl st p).propList pl = (st.propList pl).erase p := by
  simp [clearStep, upd]

theorem fold_clear_owner (pl : Nat) :
    ∀ (l : List Nat) (s : GState) (q : Nat),
      ((l.foldl (clearStep pl) s).owner q) = if q ∈ l then none else s.owner q := by
  intro l
  induction l with
  | nil => intro s q; simp
  | cons p t ih =>
      intro s q
      rw [List.foldl_cons, ih]
      by_cases hq : q = p <;> by_cases hm : q ∈ t <;> simp [hq, hm]

theorem fold_clear_buildLevel (pl : Nat) :
    ∀ (l : List Nat) (s : GState) (q : Nat),
      ((l.foldl (clearStep pl) s).buildLevel q) =
        if q ∈ l then 0 else s.buildLevel q := by
  intro l
  induction l with
  | nil => intro s q; simp
  | cons p t ih =>
      intro s q
      rw [List.foldl_cons, ih]
      by_cases hq : q = p <;> by_cases hm : q ∈ t <;> simp [hq, hm]

theorem fold_clear_mortgaged (pl : Nat) :
    ∀ (l : List Nat) (s : GState) (q : Nat),
      ((l.foldl (clearStep pl) s).mortgaged q) =
        if q ∈ l then false else s.mortgaged q := by
  intro l
  induction l with
  | nil => intro s q; simp
  | cons p t ih =>
      intro s q
      rw [List.foldl_cons, ih]
      by_cases hq : q = p <;> by_cases hm : q ∈ t <;> simp [hq, hm]

theorem fold_clear_propList (pl : Nat) :
    ∀ (l : List Nat) (s : GState),
      (l.foldl (clearStep pl) s).propList pl =
        List.foldl (fun acc p => acc.erase p) (s.propList pl) l := by
  intro l
  induction l with
  | nil => intro s; rfl
  | cons p t ih =>
      intro s
      rw [List.foldl_cons, List.foldl_cons, ih, clearStep_propList_self]

theorem foldl_erase_of_perm :
    ∀ (l acc : List Nat), acc.Perm l →
      List.foldl (fun a p => a.erase p) acc l = [] := by
  intro l
  induction l with
  | nil =>
      intro acc hacc
      rw [List.foldl_nil]
      exact hacc.eq_nil
  | cons p t ih =>
      intro acc hacc
      rw [List.foldl_cons]
      refine ih _ ?_
      have := hacc.erase p
      rwa [List.erase_cons_head] at this

/-- Postcondition of `Bank.handle_bankruptcy`: every property that was on
the player's list is released (no owner, no houses, no mortgage), the
player's list is emptied, the balance is zeroed and the bankrupt flag is
set. -/
theorem handleBankruptcy_spec (s : GState) (pl : Nat) :
    (∀ q ∈ s.propList pl,
      (handleBankruptcy s pl).owner q = none ∧
      (handleBankruptcy s pl).buildLevel q = 0 ∧
      (handleBankruptcy s pl).mortgaged q = false) ∧
    (handleBankruptcy s pl).propList pl = [] ∧
    (handleBankruptcy s pl).balance pl = 0 ∧
    (handleBankruptcy s pl).bankrupt pl = true := by
  refine ⟨?_, ?_, by simp [handleBankruptcy], by simp [handleBankruptcy]⟩
  · intro q hq
    refine ⟨?_, ?_, ?_⟩
    · show ((s.propList pl).foldl (clearStep pl) s).owner q = none
      rw [fold_clear_owner, if_pos hq]
    · show ((s.propList pl).foldl (clearStep pl) s).buildLevel q = 0
      rw [fold_clear_buildLevel, if_pos hq]
    · show ((s.propList pl).foldl (clearStep pl) s).mortgaged q = false
      rw [fold_clear_mortgaged, if_pos hq]
  · show ((s.propList pl).foldl (clearStep pl) s).propList pl = []
    rw [fold_clear_propList]
    exact foldl_erase_of_perm _ _ (List.Perm.refl _)

theorem handleBankruptcy_bankrupt_mono (s : GState) (pl q : Nat)
    (h : s.bankrupt q = true) : (handleBankruptcy s pl).bankrupt q = true := by
  show (upd _ pl true) q = true
  by_cases hq : q = pl <;> simp [upd, hq]
  · show GState.bankrupt _ q = true
    have hfold : ((s.propList pl).foldl (clearStep pl) s).bankrupt = s.bankrupt :=
      foldl_invariant GState.bankrupt _ (fun st p => clearStep_bankrupt pl st p) _ s
    rw [hfold]
    exact h

@[simp] theorem transferL_bankrupt (s : GState) (fromP toP : Option Nat)
    (amount : Int) : (transferL s fromP toP amount).2.bankrupt = s.bankrupt := by
  rcases fromP with _ | f <;> rcases toP with _ | t <;>
    rw [transferL] <;> dsimp only <;> split <;> rfl

@[simp] theorem buyProperty_bankrupt (cfg : Config) (s : GState) (pl prop : Nat) :
    (buyProperty cfg s pl prop).2.bankrupt = s.bankrupt := by
  rw [buyProperty]
  by_cases h : (s.owner prop).isSome
  · rw [if_pos h]
  · rw [if_neg h]
    rcases hm : transferL s (some pl) none (cfg.price prop) with ⟨b, s1⟩
    have : s1.bankrupt = s.bankrupt := by
      have := transferL_bankrupt s (some pl) none (cfg.price prop)
      rw [hm] at this
      exact this
    cases b <;> simpa using this

@[simp] theorem mortgageL_bankrupt (s : GState) (p : Nat) :
    (mortgageL s p).bankrupt = s.bankrupt := by
  rw [mortgageL]; split <;> rfl

@[simp] theorem moveL_bankrupt (s : GState) (pl steps size : Nat) :
    (moveL s pl steps size).bankrupt = s.bankrupt := by
  rw [moveL]
  split
  · rw [transferL_bankrupt]
  · rfl

/-- No legacy-prototype operation ever clears a set bankrupt flag. -/
theorem legacyStep_bankrupt_mono (cfg : Config) (t t' : GState) (pl : Nat)
    (hstep : LegacyStep cfg t t') (hb : t.bankrupt pl = true) :
    t'.bankrupt pl = true := by
  cases hstep with
  | transferStep fromP toP amount => rw [transferL_bankrupt]; exact hb
  | payRentStep payer p =>
      rw [payRent]
      cases how : t.owner p with
      | none => exact hb
      | some ow =>
          dsimp only
          by_cases hop : ow = payer
          · rw [if_pos hop]; exact hb
          · rw [if_neg hop]
            by_cases hz : calcRentL cfg t p payer = 0
            · rw [if_pos hz]; exact hb
            · rw [if_neg hz]
              rcases hm : transferL t (some payer) (some ow)
                  (calcRentL cfg t p payer) with ⟨b, s1⟩
              have hs1 : s1.bankrupt = t.bankrupt := by
                have := transferL_bankrupt t (some payer) (some ow)
                  (calcRentL cfg t p payer)
                rw [hm] at this
                exact this
              cases b
              · dsimp only
                exact handleBankruptcy_bankrupt_mono s1 payer pl (by rw [hs1]; exact hb)
              · dsimp only
                rw [hs1]; exact hb
  | buyStep pl2 prop => rw [buyProperty_bankrupt]; exact hb
  | mortgageStep p => rw [mortgageL_bankrupt]; exact hb
  | moveStep pl2 steps size => rw [moveL_bankrupt]; exact hb
  | bankruptcyStep pl2 => exact handleBankruptcy_bankrupt_mono t pl2 pl hb

end Leg

/-- A property configuration with a flat legacy rent of 8 and no colour
groups. -/
def baseConfig : Config :=
  { price := fun _ => 60
    baseRent := fun _ => 4
    legacyRent := fun _ => 8
    groupOf := fun _ => none
    groupMembers := fun _ => [] }

/-- A state for the C3 witness: player 0 has balance 5 and owns property
5; property 0 is owned by player 1 and charges rent 8. -/
def poorState : GState :=
  { baseState with
      owner := upd baseState.owner 0 (some 1)
      propList := upd baseState.propList 0 [5]
      balance := fun q => if q = 0 then 5 else 1500 }

/-- C3: a mandatory rent payment the player cannot cover returns failure
and triggers bankruptcy resolution: every property on the player's list
has its owner cleared, its build level zeroed and its mortgage flag
cleared, the list is emptied, the balance is exactly 0 and the bankrupt
flag is set — and no operation of this prototype ever clears a set
bankrupt flag. -/
theorem rent_bankruptcy_spec (cfg : Config) (s : GState) (payer p ow : Nat)
    (how : s.owner p = some ow) (hne : ow ≠ payer)
    (hpoor : s.balance payer < Leg.calcRentL cfg s p payer)
    (hrent : 0 < Leg.calcRentL cfg s p payer) :
    (Leg.payRent cfg s payer p).1 = false ∧
    (∀ q ∈ s.propList payer,
      (Leg.payRent cfg s payer p).2.owner q = none ∧
      (Leg.payRent cfg s payer p).2.buildLevel q = 0 ∧
      (Leg.payRent cfg s payer p).2.mortgaged q = false) ∧
    (Leg.payRent cfg s payer p).2.propList payer = [] ∧
    (Leg.payRent cfg s payer p).2.balance payer = 0 ∧
    (Leg.payRent cfg s payer p).2.bankrupt payer = true ∧
    (∀ t t' q, Leg.LegacyStep cfg t t' → t.bankrupt q = true →
      t'.bankrupt q = true) := by
  have hres : Leg.payRent cfg s payer p = (false, Leg.handleBankruptcy s payer) := by
    rw [Leg.payRent, how]
    dsimp only
    rw [if_neg hne, if_neg (by omega : ¬ Leg.calcRentL cfg s p payer = 0)]
    rw [Leg.transferL]
    dsimp only
    rw [if_pos hpoor]
  rw [hres]
  have hspec := Leg.handleBankruptcy_spec s payer
  exact ⟨rfl, hspec.1, hspec.2.1, hspec.2.2.1, hspec.2.2.2,
    fun t t' q hstep hb => Leg.legacyStep_bankrupt_mono cfg t t' q hstep hb⟩

/-- C3 witness: the bankruptcy path evaluated on `poorState` — player 0,
owing 8 with balance 5, fails to pay and ends bankrupt with balance 0. -/
theorem rent_bankruptcy_spec_witness :
    poorState.owner 0 = some 1 ∧ (1 : Nat) ≠ 0 ∧
    poorState.balance 0 < Leg.calcRentL baseConfig poorState 0 0 ∧
    (0 : Int) < Leg.calcRentL baseConfig poorState 0 0 ∧
    (Leg.payRent baseConfig poorState 0 0).1 = false ∧
    (Leg.payRent baseConfig poorState 0 0).2.balance 0 = 0 ∧
    (Leg.payRent baseConfig poorState 0 0).2.bankrupt 0 = true := by
  have h := rent_bankruptcy_spec baseConfig poorState 0 0 1 (by decide) (by decide)
    (by decide) (by decide)
  exact ⟨by decide, by decide, by decide, by decide, h.1, h.2.2.2.1, h.2.2.2.2.1⟩

/-- A two-property colour group fully owned by player 2, for the C7
counterexample: legacy flat rent 4. -/
def monopolyConfig : Config :=
  { price := fun _ => 60
    baseRent := fun _ => 4
    legacyRent := fun _ => 4
    groupOf := fun _ => some 0
    groupMembers := fun _ => [0, 1] }

/-- State for the C7 counterexample: properties 0 and 1 both owned by
player 2, unmortgaged, no houses. -/
def monopolyState : GState :=
  { baseState with owner := upd (upd baseState.owner 0 (some 2)) 1 (some 2) }

/-- C7 counterexample: `Property.calculate_rent` in `property.py` is not a
pure schedule lookup — for an unmortgaged, owned, house-free property
whose owner holds the colour-group monopoly it returns double the flat
rent (8) instead of the schedule entry for build level 0 (the flat rent
4). -/
theorem calculate_rent_counterexample :
    monopolyState.mortgaged 0 = false ∧
    monopolyState.owner 0 = some 2 ∧
    monopolyState.buildLevel 0 = 0 ∧
    monopolyConfig.legacyRent 0 = 4 ∧
    Leg.calcRentL monopolyConfig monopolyState 0 1 = 8 ∧
    ((8 : Int) ≠ 4) := by
  refine ⟨by decide, by decide, by decide, by decide, by decide, by decide⟩

/-- C7 (amended): `models.py` `PropertyCell.calculate_rent` is the pure
lookup of the claim — 0 when mortgaged or unowned, otherwise exactly the
rent-table entry for the current build level.  The `property.py` variant
additionally returns 0 when the tenant is the owner and, under a
colour-group monopoly, multiplies the flat rent by 2 (no houses) or by
1 + houses. -/
theorem calculate_rent_spec (cfg : Config) (s : GState) (p t : Nat) :
    (s.mortgaged p = true ∨ s.owner p = none →
      Fin.calculateRent cfg s p = 0 ∧ Leg.calcRentL cfg s p t = 0) ∧
    (s.mortgaged p = false → s.owner p ≠ none →
      Fin.calculateRent cfg s p = Fin.rentTable (cfg.baseRent p) (s.buildLevel p)) ∧
    (s.owner p = some t → Leg.calcRentL cfg s p t = 0) ∧
    (s.mortgaged p = false → s.owner p ≠ none → s.owner p ≠ some t →
      Leg.calcRentL cfg s p t =
        (if (cfg.groupOf p).isSome ∧ Leg.checkMonopolyL cfg s p = true then
          (if s.buildLevel p = 0 then cfg.legacyRent p * 2
           else cfg.legacyRent p * (1 + (s.buildLevel p : Int)))
         else cfg.legacyRent p)) := by
  refine ⟨?_, ?_, ?_, ?_⟩
  · intro h
    constructor
    · rw [Fin.calculateRent, if_pos h]
    · rcases h with h | h
      · rw [Leg.calcRentL, if_pos (Or.inl h)]
      · rw [Leg.calcRentL, if_pos (Or.inr (Or.inl h))]
  · intro h1 h2
    rw [Fin.calculateRent, if_neg ?_]
    rintro (hm | ho)
    · rw [h1] at hm; exact Bool.false_ne_true hm
    · exact h2 ho
  · intro h
    rw [Leg.calcRentL, if_pos (Or.inr (Or.inr h))]
  · intro h1 h2 h3
    rw [Leg.calcRentL, if_neg ?_]
    rintro (hm | ho | ht)
    · rw [h1] at hm; exact Bool.false_ne_true hm
    · exact h2 ho
    · exact h3 ht

/-- C7 witness: the pure-lookup branch at a concrete unmortgaged owned
property of build level 0 gives the base rent. -/
theorem calculate_rent_spec_witness :
    monopolyState.mortgaged 0 = false ∧ monopolyState.owner 0 ≠ none ∧
    Fin.calculateRent monopolyConfig monopolyState 0 =
      Fin.rentTable (monopolyConfig.baseRent 0) (monopolyState.buildLevel 0) :=
  ⟨by decide, by decide,
   (calculate_rent_spec monopolyConfig monopolyState 0 1).2.1 (by decide) (by decide)⟩

/-- The jail-relevant projection of the game state: position, jail flag,
jail counter.  Most operations leave it untouched. -/
def jailView (s : GState) : (Nat → Nat) × (Nat → Bool) × (Nat → Int) :=
  (s.position, s.inJail, s.jailTurnsLeft)

theorem jailView_position {s t : GState} (h : jailView s = jailView t) :
    s.position = t.position := congrArg Prod.fst h

theorem jailView_inJail {s t : GState} (h : jailView s = jailView t) :
    s.inJail = t.inJail := congrArg (fun x => x.2.1) h

theorem jailView_jtl {s t : GState} (h : jailView s = jailView t) :
    s.jailTurnsLeft = t.jailTurnsLeft := congrArg (fun x => x.2.2) h

namespace Fin

@[simp] theorem debit_jailView (s : GState) (p : Nat) (amt : Int) (r : String) :
    jailView (debit s p amt r).2 = jailView s := by
  by_cases h : s.balance p < amt <;> simp [debit, h, adjustBalance, jailView]

@[simp] theorem credit_jailView (s : GState) (p : Nat) (amt : Int) (r : String) :
    jailView (credit s p amt r) = jailView s := by
  simp [credit, adjustBalance, jailView]

@[simp] theorem transfer_jailView (s : GState) (a b : Nat) (amt : Int) (r : String) :
    jailView (transfer s a b amt r).2 = jailView s := by
  by_cases h : s.balance a < amt <;> simp [transfer, h, adjustBalance, jailView]

@[simp] theorem addProperty_jailView (s : GState) (pl q : Nat) :
    jailView (addProperty s pl q) = jailView s := by
  by_cases h : q ∈ s.propList pl <;> simp [addProperty, h, jailView]

@[simp] theorem removeProperty_jailView (s : GState) (pl q : Nat) :
    jailView (removeProperty s pl q) = jailView s := by
  by_cases h : q ∈ s.propList pl <;> simp [removeProperty, h, jailView]

@[simp] theorem purchaseProperty_jailView (cfg : Config) (s : GState)
    (pl prop : Nat) : jailView (purchaseProperty cfg s pl prop).2 = jailView s := by
  rw [purchaseProperty]
  by_cases h : (s.owner prop).isSome
  · rw [if_pos h]
  · rw [if_neg h]
    rcases hd : debit s pl (cfg.price prop) "purchase" with ⟨b, s1⟩
    have hs1 : jailView s1 = jailView s := by
      have := debit_jailView s pl (cfg.price prop) "purchase"
      rw [hd] at this
      exact this
    cases b
    · exact hs1
    · dsimp only
      rw [addProperty_jailView]
      exact hs1

@[simp] theorem payRentF_jailView (cfg : Config) (s : GState) (payer ow p : Nat) :
    jailView (payRentF cfg s payer ow p).2 = jailView s := by
  rw [payRentF]
  by_cases h : calculateRent cfg s p = 0
  · rw [if_pos h]
  · rw [if_neg h]
    exact transfer_jailView s payer ow _ "Rent"

/-- Resolving any cell other than go-to-jail never touches position, jail
flag or jail counter. -/
theorem applyCellEffects_jailView (cfg : Config) (ss : Session) (pl : Nat)
    (c : Cell) (hc : c ≠ Cell.goToJail) :
    jailView (applyCellEffects cfg ss pl c).st = jailView ss.st := by
  cases c with
  | property p =>
      rw [applyCellEffects]
      cases howner : ss.st.owner p with
      | none =>
          dsimp only
          by_cases hb : cfg.price p ≤ ss.st.balance pl
          · rw [if_pos hb]
            exact purchaseProperty_jailView cfg ss.st pl p
          · rw [if_neg hb]
      | some ow =>
          dsimp only
          by_cases hop : ow = pl
          · rw [if_pos hop]
          · rw [if_neg hop]
            exact payRentF_jailView cfg ss.st pl ow p
  | tax t => exact debit_jailView ss.st pl t "tax"
  | start => rfl
  | jail => rfl
  | goToJail => exact absurd rfl hc

/-- Cell resolution only rewrites the inner game state, never the session
bookkeeping. -/
theorem applyCellEffects_frame (cfg : Config) (ss : Session) (pl : Nat)
    (c : Cell) :
    (applyCellEffects cfg ss pl c).players = ss.players ∧
    (applyCellEffects cfg ss pl c).idx = ss.idx ∧
    (applyCellEffects cfg ss pl c).dcount = ss.dcount ∧
    (applyCellEffects cfg ss pl c).isPaused = ss.isPaused ∧
    (applyCellEffects cfg ss pl c).board = ss.board := by
  cases c with
  | property p =>
      rw [applyCellEffects]
      cases howner : ss.st.owner p with
      | none =>
          dsimp only
          by_cases hb : cfg.price p ≤ ss.st.balance pl
          · rw [if_pos hb]; exact ⟨rfl, rfl, rfl, rfl, rfl⟩
          · rw [if_neg hb]; exact ⟨rfl, rfl, rfl, rfl, rfl⟩
      | some ow =>
          dsimp only
          by_cases hop : ow = pl
          · rw [if_pos hop]; exact ⟨rfl, rfl, rfl, rfl, rfl⟩
          · rw [if_neg hop]; exact ⟨rfl, rfl, rfl, rfl, rfl⟩
  | tax t => exact ⟨rfl, rfl, rfl, rfl, rfl⟩
  | start => exact ⟨rfl, rfl, rfl, rfl, rfl⟩
  | jail => exact ⟨rfl, rfl, rfl, rfl, rfl⟩
  | goToJail => exact ⟨rfl, rfl, rfl, rfl, rfl⟩

theorem movePlayer_frame (ss : Session) (pl steps : Nat) :
    (movePlayer ss pl steps).1.players = ss.players ∧
    (movePlayer ss pl steps).1.idx = ss.idx ∧
    (movePlayer ss pl steps).1.dcount = ss.dcount ∧
    (movePlayer ss pl steps).1.isPaused = ss.isPaused ∧
    (movePlayer ss pl steps).1.board = ss.board :=
  ⟨rfl, rfl, rfl, rfl, rfl⟩

theorem movePlayer_position_self (ss : Session) (pl steps : Nat) :
    (movePlayer ss pl steps).1.st.position pl =
      (ss.st.position pl + steps) % ss.board.length := by
  show (upd _ pl (nextPosition ss.board.length (ss.st.position pl) steps)) pl = _
  rw [upd_same, nextPosition]

theorem movePlayer_inJail (ss : Session) (pl steps : Nat) :
    (movePlayer ss pl steps).1.st.inJail = ss.st.inJail := by
  rw [movePlayer]
  dsimp only
  split
  · exact jailView_inJail (credit_jailView ss.st pl 200 "salary")
  · rfl

theorem movePlayer_jtl (ss : Session) (pl steps : Nat) :
    (movePlayer ss pl steps).1.st.jailTurnsLeft = ss.st.jailTurnsLeft := by
  rw [movePlayer]
  dsimp only
  split
  · exact jailView_jtl (credit_jailView ss.st pl 200 "salary")
  · rfl

theorem movePlayer_cell (ss : Session) (pl steps : Nat) :
    (movePlayer ss pl steps).2 =
      ss.board.getD ((ss.st.position pl + steps) % ss.board.length) Cell.start := rfl

theorem rollDice_st (ss : Session) (r : Roll) : (rollDice ss r).st = ss.st := by
  rw [rollDice]; split <;> rfl

theorem rollDice_frame (ss : Session) (r : Roll) :
    (rollDice ss r).players = ss.players ∧ (rollDice ss r).idx = ss.idx ∧
    (rollDice ss r).isPaused = ss.isPaused ∧ (rollDice ss r).board = ss.board := by
  rw [rollDice]; split <;> exact ⟨rfl, rfl, rfl, rfl⟩

theorem rollDice_dcount (ss : Session) (r : Roll) :
    (rollDice ss r).dcount = if r.d1 = r.d2 then ss.dcount + 1 else ss.dcount := by
  rw [rollDice]; split <;> simp_all

theorem startTurn_dcount (ss : Session) (pl : Nat) :
    (startTurn ss pl).dcount = 0 := by
  rw [startTurn]
  by_cases h : ss.st.inJail pl = true
  · rw [if_pos h]
    dsimp only
    split <;> rfl
  · rw [if_neg h]

theorem startTurn_not_jailed (ss : Session) (pl : Nat)
    (h : ¬ ss.st.inJail pl = true) :
    startTurn ss pl = { ss with dcount := 0 } := by
  rw [startTurn, if_neg h]

/-- The game-state part of a turn start for a player who stays jailed. -/
def stayState (s : GState) (pl : Nat) : GState :=
  { s with jailTurnsLeft := upd s.jailTurnsLeft pl (s.jailTurnsLeft pl - 1) }

/-- The game-state part of a turn start that releases the player. -/
def releaseState (s : GState) (pl : Nat) : GState :=
  { s with jailTurnsLeft := upd s.jailTurnsLeft pl (s.jailTurnsLeft pl - 1),
           inJail := upd s.inJail pl false }

theorem startTurn_stay (ss : Session) (pl : Nat) (h : ss.st.inJail pl = true)
    (hj : ¬ ss.st.jailTurnsLeft pl - 1 ≤ 0) :
    startTurn ss pl = { ss with dcount := 0, st := stayState ss.st pl } := by
  rw [startTurn, if_pos h]
  dsimp only
  rw [if_neg hj]
  rfl

theorem startTurn_release (ss : Session) (pl : Nat) (h : ss.st.inJail pl = true)
    (hj : ss.st.jailTurnsLeft pl - 1 ≤ 0) :
    startTurn ss pl = { ss with dcount := 0, st := releaseState ss.st pl } := by
  rw [startTurn, if_pos h]
  dsimp only
  rw [if_pos hj]
  rfl

@[simp] theorem sendToJail_inJail_self (s : GState) (pl : Nat) :
    (sendToJail s pl).inJail pl = true := by simp [sendToJail]

@[simp] theorem sendToJail_jtl_self (s : GState) (pl : Nat) :
    (sendToJail s pl).jailTurnsLeft pl = 3 := by simp [sendToJail]

@[simp] theorem sendToJail_position_self (s : GState) (pl : Nat) :
    (sendToJail s pl).position pl = 10 := by simp [sendToJail]

theorem tmEndTurn_low (ss : Session) (h : ss.dcount < 3) :
    tmEndTurn ss = { ss with idx := (ss.idx + 1) % ss.players.length } := by
  rw [tmEndTurn]
  rw [if_neg (not_le.mpr h)]
  rfl

theorem tmEndTurn_high (ss : Session) (h : 3 ≤ ss.dcount) :
    tmEndTurn ss = { ss with st := sendToJail ss.st (currentPlayer ss),
                             idx := (ss.idx + 1) % ss.players.length } := by
  rw [tmEndTurn, if_pos h]
  rfl

@[simp] theorem stayState_inJail (s : GState) (pl : Nat) :
    (stayState s pl).inJail = s.inJail := rfl

@[simp] theorem stayState_position (s : GState) (pl : Nat) :
    (stayState s pl).position = s.position := rfl

@[simp] theorem stayState_jtl_self (s : GState) (pl : Nat) :
    (stayState s pl).jailTurnsLeft pl = s.jailTurnsLeft pl - 1 := by
  simp [stayState]

@[simp] theorem releaseState_inJail_self (s : GState) (pl : Nat) :
    (releaseState s pl).inJail pl = false := by
  simp [releaseState]

@[simp] theorem releaseState_position (s : GState) (pl : Nat) :
    (releaseState s pl).position = s.position := rfl

@[simp] theorem releaseState_jtl_self (s : GState) (pl : Nat) :
    (releaseState s pl).jailTurnsLeft pl = s.jailTurnsLeft pl - 1 := by
  simp [releaseState]

theorem movePlayer_position (ss : Session) (pl steps : Nat) :
    (movePlayer ss pl steps).1.st.position =
      upd ss.st.position pl ((ss.st.position pl + steps) % ss.board.length) := by
  rw [movePlayer]
  dsimp only
  split
  · rw [jailView_position (credit_jailView ss.st pl 200 "salary"), nextPosition]
  · rw [nextPosition]

theorem playTurn_jailed (cfg : Config) (ss : Session) (r : Roll)
    (hp : ¬ ss.isPaused = true)
    (hj : (startTurn ss (currentPlayer ss)).st.inJail (currentPlayer ss) = true) :
    playTurn cfg ss r = tmEndTurn (startTurn ss (currentPlayer ss)) := by
  rw [playTurn, if_neg hp]
  dsimp only
  rw [if_pos hj]

theorem playTurn_else (cfg : Config) (ss : Session) (r : Roll)
    (hp : ¬ ss.isPaused = true)
    (hnj : ¬ (startTurn ss (currentPlayer ss)).st.inJail (currentPlayer ss) = true) :
    playTurn cfg ss r =
      tmEndTurn (applyCellEffects cfg
        (movePlayer (rollDice (startTurn ss (currentPlayer ss)) r)
          (currentPlayer ss) (r.d1 + r.d2)).1
        (currentPlayer ss)
        (movePlayer (rollDice (startTurn ss (currentPlayer ss)) r)
          (currentPlayer ss) (r.d1 + r.d2)).2) := by
  rw [playTurn, if_neg hp]
  dsimp only
  rw [if_neg hnj]

/-- The full movement branch of a turn, for a session whose doubles
counter was just reset: the player is moved by the roll sum (with salary,
purchase, rent or tax side effects), and — provided the landed cell is not
go-to-jail — the jail fields survive untouched, the triple-doubles check
cannot fire, and the index advances by exactly one. -/
theorem run_branch_spec (cfg : Config) (ss1 : Session) (cur : Nat) (r : Roll)
    (hd : ss1.dcount = 0)
    (hcell : ss1.board.getD ((ss1.st.position cur + (r.d1 + r.d2)) %
      ss1.board.length) Cell.start ≠ Cell.goToJail) :
    (tmEndTurn (applyCellEffects cfg
        (movePlayer (rollDice ss1 r) cur (r.d1 + r.d2)).1 cur
        (movePlayer (rollDice ss1 r) cur (r.d1 + r.d2)).2)).st.position =
      upd ss1.st.position cur
        ((ss1.st.position cur + (r.d1 + r.d2)) % ss1.board.length) ∧
    (tmEndTurn (applyCellEffects cfg
        (movePlayer (rollDice ss1 r) cur (r.d1 + r.d2)).1 cur
        (movePlayer (rollDice ss1 r) cur (r.d1 + r.d2)).2)).st.inJail =
      ss1.st.inJail ∧
    (tmEndTurn (applyCellEffects cfg
        (movePlayer (rollDice ss1 r) cur (r.d1 + r.d2)).1 cur
        (movePlayer (rollDice ss1 r) cur (r.d1 + r.d2)).2)).st.jailTurnsLeft =
      ss1.st.jailTurnsLeft ∧
    (tmEndTurn (applyCellEffects cfg
        (movePlayer (rollDice ss1 r) cur (r.d1 + r.d2)).1 cur
        (movePlayer (rollDice ss1 r) cur (r.d1 + r.d2)).2)).idx =
      (ss1.idx + 1) % ss1.players.length := by
  have hst : (rollDice ss1 r).st = ss1.st := rollDice_st ss1 r
  have hfr := rollDice_frame ss1 r
  have hmv := movePlayer_position (rollDice ss1 r) cur (r.d1 + r.d2)
  have hmvJ := movePlayer_inJail (rollDice ss1 r) cur (r.d1 + r.d2)
  have hmvT := movePlayer_jtl (rollDice ss1 r) cur (r.d1 + r.d2)
  have hmframe := movePlayer_frame (rollDice ss1 r) cur (r.d1 + r.d2)
  have hcell2 : (movePlayer (rollDice ss1 r) cur (r.d1 + r.d2)).2 =
      ss1.board.getD ((ss1.st.position cur + (r.d1 + r.d2)) % ss1.board.length)
        Cell.start := by
    rw [movePlayer_cell, hst, hfr.2.2.2]
  have happ := applyCellEffects_jailView cfg
    (movePlayer (rollDice ss1 r) cur (r.d1 + r.d2)).1 cur
    (movePlayer (rollDice ss1 r) cur (r.d1 + r.d2)).2 (by rw [hcell2]; exact hcell)
  have happf := applyCellEffects_frame cfg
    (movePlayer (rollDice ss1 r) cur (r.d1 + r.d2)).1 cur
    (movePlayer (rollDice ss1 r) cur (r.d1 + r.d2)).2
  have hdc : (applyCellEffects cfg
      (movePlayer (rollDice ss1 r) cur (r.d1 + r.d2)).1 cur
      (movePlayer (rollDice ss1 r) cur (r.d1 + r.d2)).2).dcount < 3 := by
    rw [happf.2.2.1, hmframe.2.2.1, rollDice_dcount, hd]
    split <;> omega
  rw [tmEndTurn_low _ hdc]
  dsimp only
  refine ⟨?_, ?_, ?_, ?_⟩
  · rw [jailView_position happ, hmv, hst, hfr.2.2.2]
  · rw [jailView_inJail happ, hmvJ, hst]
  · rw [jailView_jtl happ, hmvT, hst]
  · rw [happf.2.1, hmframe.2.1, hfr.2.1, happf.1, hmframe.1, hfr.1]

end Fin

/-- A one-player demo session starting from the initial state. -/
def soloSession : Fin.Session :=
  { players := [0], idx := 0, dcount := 0, isPaused := false,
    board := Fin.demoBoard, st := baseState }

/-- Three turns of the one-player demo session, each rolled as a double:
(1,1), (2,2), (3,3). -/
def tripleDoublesRun : Fin.Session :=
  Fin.playTurn Fin.demoConfig
    (Fin.playTurn Fin.demoConfig
      (Fin.playTurn Fin.demoConfig soloSession ⟨1, 1⟩) ⟨2, 2⟩) ⟨3, 3⟩

/-- C5 counterexample: three consecutive double rolls by the same player
do not send the player to jail and do not halt movement — the counter is
reset by `start_turn` at every turn, each roll moved the player (final
position 12 after sums 2, 4, 6) and bought the cells landed on. -/
theorem triple_doubles_counterexample :
    tripleDoublesRun.st.inJail 0 = false ∧
    tripleDoublesRun.st.position 0 = 12 ∧
    tripleDoublesRun.st.balance 0 = 1120 ∧
    tripleDoublesRun.st.jailTurnsLeft 0 = 0 := by
  refine ⟨by decide, by decide, by decide, by decide⟩

/-- C5 (amended): the doubles counter is reset by `start_turn` at the
start of every turn (not merely on non-double rolls) and incremented by
`roll_dice` on each double; only when it has reached 3 within a single
turn does `end_turn` send the current player to jail — after that turn's
movement and cell resolution have already run — and otherwise `end_turn`
leaves the game state untouched.  In both cases the hand-off advances the
index by one. -/
theorem doubles_rule_spec (ss : Fin.Session) (pl : Nat) (r : Fin.Roll) :
    (Fin.startTurn ss pl).dcount = 0 ∧
    (Fin.rollDice ss r).dcount =
      (if r.d1 = r.d2 then ss.dcount + 1 else ss.dcount) ∧
    (3 ≤ ss.dcount →
      (Fin.tmEndTurn ss).st.inJail (Fin.currentPlayer ss) = true ∧
      (Fin.tmEndTurn ss).st.jailTurnsLeft (Fin.currentPlayer ss) = 3 ∧
      (Fin.tmEndTurn ss).st.position (Fin.currentPlayer ss) = 10 ∧
      (Fin.tmEndTurn ss).idx = (ss.idx + 1) % ss.players.length) ∧
    (ss.dcount < 3 →
      (Fin.tmEndTurn ss).st = ss.st ∧
      (Fin.tmEndTurn ss).idx = (ss.idx + 1) % ss.players.length) := by
  refine ⟨Fin.startTurn_dcount ss pl, Fin.rollDice_dcount ss r, ?_, ?_⟩
  · intro h3
    rw [Fin.tmEndTurn_high ss h3]
    exact ⟨by simp, by simp, by simp, rfl⟩
  · intro hlt
    rw [Fin.tmEndTurn_low ss hlt]
    exact ⟨rfl, rfl⟩

/-- C5 witness: the doubles-rule specification evaluated on the solo demo
session (counter reset, increment on the double (2,2), and the quiet
`end_turn` below three doubles). -/
theorem doubles_rule_spec_witness :
    soloSession.dcount < 3 ∧
    (Fin.startTurn soloSession 0).dcount = 0 ∧
    (Fin.tmEndTurn soloSession).idx = (soloSession.idx + 1) %
      soloSession.players.length :=
  ⟨by decide, (doubles_rule_spec soloSession 0 ⟨2, 2⟩).1,
   ((doubles_rule_spec soloSession 0 ⟨2, 2⟩).2.2.2 (by decide)).2⟩

/-- A one-player session whose player is jailed on the jail cell with one
jail turn left. -/
def jailSession : Fin.Session :=
  { players := [0], idx := 0, dcount := 0, isPaused := false,
    board := Fin.demoBoard,
    st := { baseState with
              inJail := upd baseState.inJail 0 true
              jailTurnsLeft := upd baseState.jailTurnsLeft 0 1
              position := upd baseState.position 0 7 } }

/-- C6 counterexample: a jailed player whose counter reaches zero is
released by `start_turn` and then — in that same turn — rolls and moves
(from cell 7 to cell 11, paying the tax found there); the claim that the
released player first rolls on the following turn is false. -/
theorem jail_release_counterexample :
    jailSession.st.inJail 0 = true ∧
    jailSession.st.jailTurnsLeft 0 = 1 ∧
    jailSession.st.position 0 = 7 ∧
    (Fin.playTurn Fin.demoConfig jailSession ⟨1, 3⟩).st.inJail 0 = false ∧
    (Fin.playTurn Fin.demoConfig jailSession ⟨1, 3⟩).st.position 0 = 11 ∧
    (Fin.playTurn Fin.demoConfig jailSession ⟨1, 3⟩).st.balance 0 = 1400 := by
  refine ⟨by decide, by decide, by decide, by decide, by decide, by decide⟩

/-- C6 (amended): every turn started by a jailed player decrements the
jail counter by one.  While the decremented counter stays positive the
player neither rolls nor moves.  When it reaches zero the player is
released and — in that same turn — rolls and moves by the roll sum
(provided the landed cell is not go-to-jail); the hand-off then advances
the index by one either way. -/
theorem jail_turn_spec (cfg : Config) (ss : Fin.Session) (r : Fin.Roll)
    (hp : ss.isPaused = false)
    (hj : ss.st.inJail (Fin.currentPlayer ss) = true) :
    (1 < ss.st.jailTurnsLeft (Fin.currentPlayer ss) →
      (Fin.playTurn cfg ss r).st.inJail (Fin.currentPlayer ss) = true ∧
      (Fin.playTurn cfg ss r).st.jailTurnsLeft (Fin.currentPlayer ss) =
        ss.st.jailTurnsLeft (Fin.currentPlayer ss) - 1 ∧
      (Fin.playTurn cfg ss r).st.position (Fin.currentPlayer ss) =
        ss.st.position (Fin.currentPlayer ss) ∧
      (Fin.playTurn cfg ss r).idx = (ss.idx + 1) % ss.players.length) ∧
    (ss.st.jailTurnsLeft (Fin.currentPlayer ss) ≤ 1 →
      ss.board.getD ((ss.st.position (Fin.currentPlayer ss) + (r.d1 + r.d2)) %
        ss.board.length) Fin.Cell.start ≠ Fin.Cell.goToJail →
      (Fin.playTurn cfg ss r).st.inJail (Fin.currentPlayer ss) = false ∧
      (Fin.playTurn cfg ss r).st.jailTurnsLeft (Fin.currentPlayer ss) =
        ss.st.jailTurnsLeft (Fin.currentPlayer ss) - 1 ∧
      (Fin.playTurn cfg ss r).st.position (Fin.currentPlayer ss) =
        (ss.st.position (Fin.currentPlayer ss) + (r.d1 + r.d2)) %
          ss.board.length ∧
      (Fin.playTurn cfg ss r).idx = (ss.idx + 1) % ss.players.length) := by
  have hp2 : ¬ ss.isPaused = true := by rw [hp]; exact Bool.false_ne_true
  constructor
  · intro hgt
    have hnr : ¬ ss.st.jailTurnsLeft (Fin.currentPlayer ss) - 1 ≤ 0 := by omega
    have hstart := Fin.startTurn_stay ss (Fin.currentPlayer ss) hj hnr
    have hjail : (Fin.startTurn ss (Fin.currentPlayer ss)).st.inJail
        (Fin.currentPlayer ss) = true := by
      rw [hstart]; exact hj
    rw [Fin.playTurn_jailed cfg ss r hp2 hjail]
    have hd : (Fin.startTurn ss (Fin.currentPlayer ss)).dcount < 3 := by
      rw [Fin.startTurn_dcount]; omega
    rw [Fin.tmEndTurn_low _ hd, hstart]
    refine ⟨hj, by simp, rfl, rfl⟩
  · intro hle hcell
    have hr : ss.st.jailTurnsLeft (Fin.currentPlayer ss) - 1 ≤ 0 := by omega
    have hstart := Fin.startTurn_release ss (Fin.currentPlayer ss) hj hr
    have hnj : ¬ (Fin.startTurn ss (Fin.currentPlayer ss)).st.inJail
        (Fin.currentPlayer ss) = true := by
      rw [hstart]
      simp
    rw [Fin.playTurn_else cfg ss r hp2 hnj]
    have hrun := Fin.run_branch_spec cfg (Fin.startTurn ss (Fin.currentPlayer ss))
      (Fin.currentPlayer ss) r (Fin.startTurn_dcount ss (Fin.currentPlayer ss))
      (by rw [hstart]; simpa using hcell)
    refine ⟨?_, ?_, ?_, ?_⟩
    · rw [hrun.2.1, hstart]; simp
    · rw [hrun.2.2.1, hstart]; simp
    · rw [hrun.1, hstart]; simp
    · rw [hrun.2.2.2, hstart]

/-- C6 witness: the jail-turn specification evaluated on a player with
three turns left — the turn only decrements the counter (3 to 2) and the
player stays in place. -/
theorem jail_turn_spec_witness :
    (Fin.playTurn Fin.demoConfig
      { jailSession with st := { jailSession.st with
          jailTurnsLeft := upd jailSession.st.jailTurnsLeft 0 3 } }
      ⟨1, 3⟩).st.position 0 = 7 :=
  ((jail_turn_spec Fin.demoConfig
      { jailSession with st := { jailSession.st with
          jailTurnsLeft := upd jailSession.st.jailTurnsLeft 0 3 } }
      ⟨1, 3⟩ (by decide) (by decide)).1 (by decide)).2.2.1.trans (by decide)

/-- A two-player demo session in which player 1 is bankrupt and player 0
has just finished a turn. -/
def bankruptSession : Fin.Session :=
  { players := [0, 1], idx := 0, dcount := 0, isPaused := false,
    board := Fin.demoBoard,
    st := { baseState with bankrupt := upd baseState.bankrupt 1 true } }

/-- C4 counterexample: after player 0's hand-off the rotation lands on the
bankrupt player 1 (not on the next non-bankrupt player 0), and player 1
then takes a full turn — rolling (1,2) and moving from 0 to cell 3. -/
theorem bankrupt_turn_counterexample :
    bankruptSession.st.bankrupt 1 = true ∧
    (Fin.sessionEndTurn bankruptSession).idx = 1 ∧
    Fin.currentPlayer (Fin.sessionEndTurn bankruptSession) = 1 ∧
    (Fin.playTurn Fin.demoConfig (Fin.sessionEndTurn bankruptSession)
      ⟨1, 2⟩).st.position 1 = 3 := by
  refine ⟨by decide, by decide, by decide, by decide⟩

/-- C4 (amended): the end-of-turn hand-off advances the rotation by
exactly one seat modulo the roster size, with no bankruptcy check, and a
bankrupt player whose turn comes up is not skipped: the turn runs in full,
moving the bankrupt player by the roll sum. -/
theorem rotation_ignores_bankruptcy (cfg : Config) (ss : Fin.Session)
    (r : Fin.Roll) (hp : ss.isPaused = false)
    (hbk : ss.st.bankrupt (Fin.currentPlayer ss) = true)
    (hnj : ss.st.inJail (Fin.currentPlayer ss) = false)
    (hcell : ss.board.getD ((ss.st.position (Fin.currentPlayer ss) +
      (r.d1 + r.d2)) % ss.board.length) Fin.Cell.start ≠ Fin.Cell.goToJail) :
    (Fin.sessionEndTurn ss).idx = (ss.idx + 1) % ss.players.length ∧
    (Fin.sessionEndTurn ss).st = ss.st ∧
    (Fin.playTurn cfg ss r).st.position (Fin.currentPlayer ss) =
      (ss.st.position (Fin.currentPlayer ss) + (r.d1 + r.d2)) %
        ss.board.length ∧
    (Fin.playTurn cfg ss r).idx = (ss.idx + 1) % ss.players.length := by
  have hp2 : ¬ ss.isPaused = true := by rw [hp]; exact Bool.false_ne_true
  have hstart := Fin.startTurn_not_jailed ss (Fin.currentPlayer ss)
    (by rw [hnj]; exact Bool.false_ne_true)
  have hnj2 : ¬ (Fin.startTurn ss (Fin.currentPlayer ss)).st.inJail
      (Fin.currentPlayer ss) = true := by
    rw [hstart]
    show ¬ ss.st.inJail (Fin.currentPlayer ss) = true
    rw [hnj]
    exact Bool.false_ne_true
  rw [Fin.playTurn_else cfg ss r hp2 hnj2]
  have hrun := Fin.run_branch_spec cfg (Fin.startTurn ss (Fin.currentPlayer ss))
    (Fin.currentPlayer ss) r (Fin.startTurn_dcount ss (Fin.currentPlayer ss))
    (by rw [hstart]; simpa using hcell)
  refine ⟨rfl, rfl, ?_, ?_⟩
  · rw [hrun.1, hstart]
    simp
  · rw [hrun.2.2.2, hstart]

/-- C4 witness: on the session where the rotation just reached the
bankrupt player 1, the amended specification reproduces the counterexample
movement. -/
theorem rotation_ignores_bankruptcy_witness :
    (Fin.playTurn Fin.demoConfig (Fin.sessionEndTurn bankruptSession)
      ⟨1, 2⟩).st.position 1 = 3 :=
  ((rotation_ignores_bankruptcy Fin.demoConfig
      (Fin.sessionEndTurn bankruptSession) ⟨1, 2⟩ (by decide) (by decide)
      (by decide) (by decide)).2.2.1).trans (by decide)

/-- Ownership consistency: property lists are duplicate-free and a
property sits on a player's list exactly when its owner field points to
that player (so in particular no property is on two lists). -/
def Consistent (s : GState) : Prop :=
  (∀ q, (s.propList q).Nodup) ∧ (∀ p q, p ∈ s.propList q ↔ s.owner p = some q)

/-- The session-start condition: no property owned, no list populated, no
pending offer. -/
def InitCond (s : GState) : Prop :=
  (∀ p, s.owner p = none) ∧ (∀ q, s.propList q = []) ∧ s.pending = []

/-- The ownership-moving operations named by the claim, exactly as the
code exposes them: purchases, trade submissions and acceptances, auction
resolutions (invoked for a property that was unowned when the purchase
was declined), and bankruptcy resolutions. -/
inductive Step : GState → GState → Prop where
  | purchaseStep (cfg : Config) (s : GState) (pl p : Nat) :
      Step s (Fin.purchaseProperty cfg s pl p).2
  | submitStep (s : GState) (o : TradeOffer) : Step s (Fin.submit s o).2
  | acceptStep (s : GState) (o : TradeOffer) : Step s (Fin.accept s o).2
  | auctionStep (s : GState) (w : Nat) (amt : Int) (p : Nat)
      (hu : s.owner p = none) : Step s (Fin.resolveAuction s w amt p)
  | bankruptcyStep (s : GState) (pl : Nat) : Step s (Leg.handleBankruptcy s pl)

/-- States reachable from a session start through `Step`. -/
inductive Reach : GState → Prop where
  | init (s : GState) (h : InitCond s) : Reach s
  | step (s t : GState) (hr : Reach s) (hs : Step s t) : Reach t

/-- Like `Step`, but an offer may only be accepted while its listed
properties are still owned by the respective parties — the condition
`validate` established at submission time. -/
inductive SafeStep : GState → GState → Prop where
  | purchaseStep (cfg : Config) (s : GState) (pl p : Nat) :
      SafeStep s (Fin.purchaseProperty cfg s pl p).2
  | submitStep (s : GState) (o : TradeOffer) : SafeStep s (Fin.submit s o).2
  | acceptStep (s : GState) (o : TradeOffer)
      (hf : ∀ p ∈ o.propertiesFrom, s.owner p = some o.fromPlayer)
      (ht : ∀ p ∈ o.propertiesTo, s.owner p = some o.toPlayer) :
      SafeStep s (Fin.accept s o).2
  | auctionStep (s : GState) (w : Nat) (amt : Int) (p : Nat)
      (hu : s.owner p = none) : SafeStep s (Fin.resolveAuction s w amt p)
  | bankruptcyStep (s : GState) (pl : Nat) : SafeStep s (Leg.handleBankruptcy s pl)

/-- States reachable from a session start through `SafeStep`. -/
inductive SafeReach : GState → Prop where
  | init (s : GState) (h : InitCond s) : SafeReach s
  | step (s t : GState) (hr : SafeReach s) (hs : SafeStep s t) : SafeReach t

namespace Fin

@[simp] theorem debit_owner (s : GState) (p : Nat) (amt : Int) (r : String) :
    (debit s p amt r).2.owner = s.owner := by
  by_cases h : s.balance p < amt <;> simp [debit, h, adjustBalance]

@[simp] theorem debit_propList (s : GState) (p : Nat) (amt : Int) (r : String) :
    (debit s p amt r).2.propList = s.propList := by
  by_cases h : s.balance p < amt <;> simp [debit, h, adjustBalance]

end Fin

/-- Nodup survives appending an element that is not yet in the list. -/
theorem nodup_append_singleton {l : List Nat} {p : Nat}
    (hnd : l.Nodup) (hp : p ∉ l) : (l ++ [p]).Nodup := by
  rw [List.nodup_append]
  refine ⟨hnd, List.nodup_singleton p, ?_⟩
  intro a ha hb
  rw [List.mem_singleton] at hb
  subst hb
  exact hp ha

/-- Core consistency step for assigning an unowned property: a state
whose owner map gained `p ↦ pl` and whose lists gained `p` on `pl`'s list
only (duplicate-free) is consistent again.  This is the shape of both
`purchase_property` and `resolve_auction`. -/
theorem consistent_of_append (s G : GState) (pl p : Nat) (h : Consistent s)
    (hnone : s.owner p = none)
    (howner : ∀ x, G.owner x = (if x = p then some pl else s.owner x))
    (hmem : ∀ x q, x ∈ G.propList q ↔ (x ∈ s.propList q ∨ (x = p ∧ q = pl)))
    (hnd : ∀ q, (G.propList q).Nodup) :
    Consistent G := by
  have hnotmem : ∀ q, p ∉ s.propList q := by
    intro q hmem2
    have := (h.2 p q).mp hmem2
    rw [hnone] at this
    exact Option.noConfusion this
  refine ⟨hnd, ?_⟩
  intro x q
  rw [hmem x q, howner x]
  by_cases hxp : x = p
  · subst hxp
    rw [if_pos rfl]
    constructor
    · rintro (hm | ⟨_, rfl⟩)
      · exact absurd hm (hnotmem q)
      · rfl
    · intro hc
      exact Or.inr ⟨rfl, (Option.some.inj hc).symm⟩
  · rw [if_neg hxp]
    constructor
    · rintro (hm | ⟨hxe, _⟩)
      · exact (h.2 x q).mp hm
      · exact absurd hxe hxp
    · intro hown
      exact Or.inl ((h.2 x q).mpr hown)

/-- Pointwise list effect of `remove_property`: erase the first
occurrence from the named player's list (a no-op when absent, matching
the `if cell in` guard). -/
theorem removeProperty_propList_eq (s : GState) (pl prop q : Nat) :
    (Fin.removeProperty s pl prop).propList q =
      upd s.propList pl ((s.propList pl).erase prop) q := by
  by_cases h : prop ∈ s.propList pl
  · rw [Fin.removeProperty, if_pos h]
  · rw [Fin.removeProperty, if_neg h, upd_apply]
    by_cases hq : q = pl
    · subst hq
      rw [if_pos rfl, List.erase_of_not_mem h]
    · rw [if_neg hq]

/-- Membership after `add_property`: the old members plus the added
property on the named player's list (the guard only prevents a duplicate
entry). -/
theorem addProperty_mem (s : GState) (pl prop x q : Nat) :
    x ∈ (Fin.addProperty s pl prop).propList q ↔
      (x ∈ s.propList q ∨ (x = prop ∧ q = pl)) := by
  by_cases h : prop ∈ s.propList pl
  · rw [Fin.addProperty, if_pos h]
    constructor
    · exact fun hx => Or.inl hx
    · rintro (hx | ⟨rfl, rfl⟩)
      · exact hx
      · exact h
  · rw [Fin.addProperty, if_neg h]
    dsimp only
    rw [upd_apply]
    by_cases hq : q = pl
    · subst hq
      rw [if_pos rfl, List.mem_append, List.mem_singleton]
      constructor
      · rintro (hx | rfl)
        · exact Or.inl hx
        · exact Or.inr ⟨rfl, rfl⟩
      · rintro (hx | ⟨rfl, _⟩)
        · exact Or.inl hx
        · exact Or.inr rfl
    · rw [if_neg hq]
      constructor
      · exact fun hx => Or.inl hx
      · rintro (hx | ⟨rfl, rfl⟩)
        · exact hx
        · exact absurd rfl hq

/-- `add_property` keeps lists duplicate-free thanks to its membership
guard. -/
theorem addProperty_nodup (s : GState) (pl prop : Nat)
    (hnd : ∀ q, (s.propList q).Nodup) (q : Nat) :
    ((Fin.addProperty s pl prop).propList q).Nodup := by
  by_cases h : prop ∈ s.propList pl
  · rw [Fin.addProperty, if_pos h]
    exact hnd q
  · rw [Fin.addProperty, if_neg h]
    dsimp only
    rw [upd_apply]
    by_cases hq : q = pl
    · subst hq
      rw [if_pos rfl]
      exact nodup_append_singleton (hnd q) h
    · rw [if_neg hq]
      exact hnd q

/-- Moving one property whose owner is one of the two trade parties keeps
the invariant — the single-iteration lemma for the `settle_trade`
reassignment loops. -/
theorem consistent_giveProp (s : GState) (f t p : Nat) (h : Consistent s)
    (hp : s.owner p = some f ∨ s.owner p = some t) :
    Consistent (Fin.giveProp s f t p) := by
  have hmemG : ∀ x q, x ∈ (Fin.giveProp s f t p).propList q ↔
      ((x ∈ upd s.propList f ((s.propList f).erase p) q) ∨ (x = p ∧ q = t)) := by
    intro x q
    rw [Fin.giveProp, addProperty_mem]
    rw [removeProperty_propList_eq]
  constructor
  · intro q
    rw [Fin.giveProp]
    refine addProperty_nodup _ t p ?_ q
    intro q2
    rw [removeProperty_propList_eq, upd_apply]
    by_cases hq2 : q2 = f
    · rw [if_pos hq2]
      exact List.Nodup.erase p (h.1 f)
    · rw [if_neg hq2]
      exact h.1 q2
  · intro x q
    rw [hmemG x q, Fin.giveProp_owner]
    simp only [upd_apply]
    by_cases hxp : x = p
    · subst hxp
      rw [if_pos rfl]
      constructor
      · rintro (hA | ⟨_, rfl⟩)
        · by_cases hq : q = f
          · rw [if_pos hq] at hA
            exact absurd ((List.Nodup.mem_erase_iff (h.1 f)).mp hA).1 (by simp)
          · rw [if_neg hq] at hA
            have hown := (h.2 x q).mp hA
            rcases hp with hpf | hpt
            · rw [hpf] at hown
              exact absurd (Option.some.inj hown).symm hq
            · rw [hpt] at hown
              exact hown
        · rfl
      · intro hq
        exact Or.inr ⟨rfl, (Option.some.inj hq).symm⟩
    · rw [if_neg hxp]
      have hmain : (x ∈ if q = f then (s.propList f).erase p
          else s.propList q) ↔ s.owner x = some q := by
        by_cases hq : q = f
        · subst hq
          rw [if_pos rfl, List.mem_erase_of_ne hxp]
          exact h.2 x q
        · rw [if_neg hq]
          exact h.2 x q
      rw [← hmain]
      constructor
      · rintro (hA | ⟨hxe, _⟩)
        · exact hA
        · exact absurd hxe hxp
      · exact Or.inl

/-- The reassignment loops of `settle_trade` preserve consistency as long
as every processed property currently belongs to one of the two trade
parties. -/
theorem consistent_fold_give (f t : Nat) :
    ∀ (l : List Nat) (s : GState), Consistent s →
      (∀ p ∈ l, s.owner p = some f ∨ s.owner p = some t) →
      Consistent (l.foldl (fun st p => Fin.giveProp st f t p) s) := by
  intro l
  induction l with
  | nil => intro s h _; exact h
  | cons p tl ih =>
      intro s h hall
      rw [List.foldl_cons]
      refine ih _ (consistent_giveProp s f t p h
        (hall p (List.mem_cons_self p tl))) ?_
      intro x hx
      rw [Fin.giveProp_owner, upd_apply]
      by_cases hxp : x = p
      · rw [if_pos hxp]
        exact Or.inr rfl
      · rw [if_neg hxp]
        exact hall x (List.mem_cons_of_mem p hx)

theorem consistent_settleMoney (s : GState) (o : TradeOffer)
    (h : Consistent s) : Consistent (Fin.settleMoney s o) := by
  constructor
  · intro q
    rw [Fin.settleMoney_propList]
    exact h.1 q
  · intro x q
    rw [Fin.settleMoney_propList, Fin.settleMoney_owner]
    exact h.2 x q

/-- `settle_trade` preserves consistency when its listed properties are
owned by the respective parties at settlement time. -/
theorem consistent_settleTrade (s : GState) (o : TradeOffer) (h : Consistent s)
    (hf : ∀ p ∈ o.propertiesFrom, s.owner p = some o.fromPlayer)
    (ht : ∀ p ∈ o.propertiesTo, s.owner p = some o.toPlayer) :
    Consistent (Fin.settleTrade s o).2 := by
  rw [Fin.settleTrade]
  by_cases h1 : 0 < o.moneyFrom ∧ s.balance o.fromPlayer < o.moneyFrom
  · rw [if_pos h1]
    exact h
  · rw [if_neg h1]
    by_cases h2 : 0 < o.moneyTo ∧ s.balance o.toPlayer < o.moneyTo
    · rw [if_pos h2]
      exact h
    · rw [if_neg h2]
      dsimp only
      rw [Fin.settleProps]
      have hm := consistent_settleMoney s o h
      have hmo : (Fin.settleMoney s o).owner = s.owner := Fin.settleMoney_owner s o
      have hs3 := consistent_fold_give o.fromPlayer o.toPlayer o.propertiesFrom
        (Fin.settleMoney s o) hm
        (by intro p hp; rw [hmo]; exact Or.inl (hf p hp))
      refine consistent_fold_give o.toPlayer o.fromPlayer o.propertiesTo _ hs3 ?_
      intro p hp
      rw [Fin.foldl_give_owner, hmo]
      by_cases hin : p ∈ o.propertiesFrom
      · rw [if_pos hin]
        exact Or.inl rfl
      · rw [if_neg hin]
        exact Or.inl (ht p hp)

theorem consistent_accept (s : GState) (o : TradeOffer) (h : Consistent s)
    (hf : ∀ p ∈ o.propertiesFrom, s.owner p = some o.fromPlayer)
    (ht : ∀ p ∈ o.propertiesTo, s.owner p = some o.toPlayer) :
    Consistent (Fin.accept s o).2 := by
  rw [Fin.accept]
  by_cases hpend : o ∈ s.pending
  · rw [if_pos hpend]
    rcases hres : Fin.settleTrade s o with ⟨b, s1⟩
    have hcons : Consistent s1 := by
      have := consistent_settleTrade s o h hf ht
      rw [hres] at this
      exact this
    cases b
    · exact hcons
    · exact hcons
  · rw [if_neg hpend]
    exact h

theorem consistent_purchase (cfg : Config) (s : GState) (pl p : Nat)
    (h : Consistent s) : Consistent (Fin.purchaseProperty cfg s pl p).2 := by
  rw [Fin.purchaseProperty]
  by_cases ho : (s.owner p).isSome
  · rw [if_pos ho]
    exact h
  · rw [if_neg ho]
    have hnone : s.owner p = none := Option.not_isSome_iff_eq_none.mp ho
    have hnm : p ∉ s.propList pl := by
      intro hm
      have := (h.2 p pl).mp hm
      rw [hnone] at this
      exact Option.noConfusion this
    by_cases hb : s.balance pl < cfg.price p
    · rw [Fin.debit, if_pos hb]
      exact h
    · rw [Fin.debit, if_neg hb]
      dsimp only
      refine consistent_of_append s _ pl p h hnone ?_ ?_ ?_
      · intro x
        rw [Fin.addProperty_owner]
        rfl
      · intro x q
        exact addProperty_mem _ pl p x q
      · intro q
        refine addProperty_nodup _ pl p ?_ q
        intro q2
        exact h.1 q2

theorem consistent_resolveAuction (s : GState) (w : Nat) (amt : Int) (p : Nat)
    (h : Consistent s) (hnone : s.owner p = none) :
    Consistent (Fin.resolveAuction s w amt p) := by
  rw [Fin.resolveAuction]
  have hnm : p ∉ s.propList w := by
    intro hm
    have := (h.2 p w).mp hm
    rw [hnone] at this
    exact Option.noConfusion this
  by_cases hb : s.balance w < amt
  · rw [Fin.debit, if_pos hb]
    exact h
  · rw [Fin.debit, if_neg hb]
    dsimp only
    refine consistent_of_append s _ w p h hnone ?_ ?_ ?_
    · intro x
      rw [Fin.addProperty_owner]
      rfl
    · intro x q
      exact addProperty_mem _ w p x q
    · intro q
      refine addProperty_nodup _ w p ?_ q
      intro q2
      exact h.1 q2

theorem consistent_submit (s : GState) (o : TradeOffer) (h : Consistent s) :
    Consistent (Fin.submit s o).2 := by
  rw [Fin.submit]
  by_cases hv : (Fin.validate s o).1 = true
  · rw [if_pos hv]
    exact h
  · rw [if_neg hv]
    exact h

theorem consistent_handleBankruptcy (s : GState) (pl : Nat)
    (h : Consistent s) : Consistent (Leg.handleBankruptcy s pl) := by
  have howner : ∀ q, (Leg.handleBankruptcy s pl).owner q =
      if q ∈ s.propList pl then none else s.owner q := by
    intro q
    show ((s.propList pl).foldl (Leg.clearStep pl) s).owner q = _
    exact Leg.fold_clear_owner pl _ s q
  have hlist_pl : (Leg.handleBankruptcy s pl).propList pl = [] := by
    show ((s.propList pl).foldl (Leg.clearStep pl) s).propList pl = []
    rw [Leg.fold_clear_propList]
    exact Leg.foldl_erase_of_perm _ _ (List.Perm.refl _)
  have hlist_other : ∀ q, q ≠ pl →
      (Leg.handleBankruptcy s pl).propList q = s.propList q := by
    intro q hq
    show ((s.propList pl).foldl (Leg.clearStep pl) s).propList q = s.propList q
    refine foldl_invariant (fun st => st.propList q) _ ?_ _ s
    intro st p
    simp [Leg.clearStep, upd, hq]
  constructor
  · intro q
    by_cases hq : q = pl
    · rw [hq, hlist_pl]
      exact List.nodup_nil
    · rw [hlist_other q hq]
      exact h.1 q
  · intro x q
    rw [howner x]
    by_cases hq : q = pl
    · subst hq
      rw [hlist_pl]
      refine iff_of_false (List.not_mem_nil x) ?_
      by_cases hx : x ∈ s.propList q
      · rw [if_pos hx]
        exact fun hc => Option.noConfusion hc
      · rw [if_neg hx]
        intro hc
        exact hx ((h.2 x q).mpr hc)
    · rw [hlist_other q hq]
      by_cases hx : x ∈ s.propList pl
      · rw [if_pos hx]
        have hxpl := (h.2 x pl).mp hx
        constructor
        · intro hm
          have hxq := (h.2 x q).mp hm
          rw [hxpl] at hxq
          exact absurd (Option.some.inj hxq).symm hq
        · intro hc
          exact Option.noConfusion hc
      · rw [if_neg hx]
        exact h.2 x q

/-- C9 (amended): ownership consistency — lists duplicate-free and
`p ∈ q.properties ↔ p.owner = q` — holds in every state reachable from a
session start by purchases, trade submissions, trade acceptances whose
listed properties are still owned by the respective parties at settlement
time, auction resolutions of unowned properties, and bankruptcy
resolutions.  (Without the italicised settlement condition the invariant
is breakable — see the counterexample.) -/
theorem ownership_invariant : ∀ s, SafeReach s → Consistent s := by
  intro s hreach
  induction hreach with
  | init s h =>
      constructor
      · intro q
        rw [h.2.1 q]
        exact List.nodup_nil
      · intro x q
        rw [h.2.1 q, h.1 x]
        refine iff_of_false (List.not_mem_nil x) ?_
        exact fun hc => Option.noConfusion hc
  | step s t hr hs ih =>
      cases hs
      case purchaseStep cfg pl p => exact consistent_purchase cfg s pl p ih
      case submitStep o => exact consistent_submit s o ih
      case acceptStep o hf ht => exact consistent_accept s o ih hf ht
      case auctionStep w amt p hu => exact consistent_resolveAuction s w amt p ih hu
      case bankruptcyStep pl => exact consistent_handleBankruptcy s pl ih

/-- C9 witness: the invariant theorem applied to the reachable session
start. -/
theorem ownership_invariant_witness : Consistent baseState :=
  ownership_invariant baseState
    (SafeReach.init baseState ⟨fun _ => rfl, fun _ => rfl, rfl⟩)

/-- First stale offer: player 0 gives property 5 to player 1. -/
def tradeOffer1 : TradeOffer := ⟨0, 1, 0, 0, [5], [], [], []⟩

/-- Second stale offer: player 0 gives the same property 5 to player 2. -/
def tradeOffer2 : TradeOffer := ⟨0, 2, 0, 0, [5], [], [], []⟩

/-- The state after: purchase of property 5 by player 0, submission of
both offers (both valid at submission time), then acceptance of both. -/
def doubleTradeState : GState :=
  (Fin.accept (Fin.accept (Fin.submit (Fin.submit
    (Fin.purchaseProperty baseConfig baseState 0 5).2
    tradeOffer1).2 tradeOffer2).2 tradeOffer1).2 tradeOffer2).2

/-- C9 counterexample: the ownership-consistency invariant does not hold
in every state reachable by purchases and trade settlements.  Submitting
two offers for the same property and accepting both (acceptance re-checks
funds only) leaves property 5 on the lists of players 1 and 2 at once
while its owner field names player 2 — `5 ∈ propList 1` but
`owner 5 ≠ some 1`. -/
theorem ownership_invariant_counterexample :
    Reach doubleTradeState ∧
    5 ∈ doubleTradeState.propList 1 ∧
    5 ∈ doubleTradeState.propList 2 ∧
    doubleTradeState.owner 5 = some 2 ∧
    doubleTradeState.owner 5 ≠ some 1 := by
  refine ⟨?_, by decide, by decide, by decide, by decide⟩
  refine Reach.step _ _ (Reach.step _ _ (Reach.step _ _ (Reach.step _ _
    (Reach.step _ _ (Reach.init baseState ⟨fun _ => rfl, fun _ => rfl, rfl⟩)
      (Step.purchaseStep baseConfig baseState 0 5))
    (Step.submitStep _ tradeOffer1))
    (Step.submitStep _ tradeOffer2))
    (Step.acceptStep _ tradeOffer1))
    (Step.acceptStep _ tradeOffer2)

end Monopoly
